import Mathlib

/-! PLINK2 reader (`src/main.c`): a shallow embedding and its verification.

The C program keeps three `FILE*` streams and three header fields in a
`Plink2Reader` struct.  Here a stream is its byte content plus a cursor, every
function takes the reader and returns the reader it leaves behind together
with its outcome, and a call of `exit(EXIT_FAILURE)` is an `Except.error`.

Machine integers are natural numbers; every `uint32_t` operation of the source
is reduced modulo `2 ^ 32` where the C operation is.  The host is little-endian
(the source reads the two counts with `fread` straight into `uint32_t` fields).
`malloc` is assumed to succeed.  Storage that the source reads without having
written it (fresh `malloc` blocks, stack buffers) holds the bytes given by a
parameter `junk`.
-/

namespace Plink2

/-- One octet of a stream or of memory. -/
abbrev Byte := Fin 256

/-- The ways the program stops: the three `exit(EXIT_FAILURE)` sites of the
source, and an access outside an allocated block or through a null pointer
(undefined behaviour in C, recorded as a fault). -/
inductive ExitError where
  | invalidFormat
  | unsupportedMode
  | outOfRange
  | memoryFault
  deriving DecidableEq, Repr

deriving instance DecidableEq for Except

/-- A `FILE*`: the content of the file and the cursor. -/
structure FileStream where
  bytes : List Byte
  pos : Nat
  deriving DecidableEq, Repr

/-- The `Plink2Reader` struct of the source. -/
structure Plink2Reader where
  pgen_file : FileStream
  pvar_file : FileStream
  psam_file : FileStream
  variant_count : Nat
  sample_count : Nat
  file_size : Nat
  deriving DecidableEq, Repr

/-- Width of `uint32_t`. -/
def U32 : Nat := 2 ^ 32

/-- The contents of `n` bytes of storage that has not been written yet;
`base` tells distinct objects of one function apart. -/
def uninit (junk : Nat → Byte) (base n : Nat) : List Byte :=
  (List.range' base n).map junk

/-- Models `fread(buf, 1, n, f)`: the bytes available from the cursor, at most
`n`, overwrite the front of `buf`; the rest of `buf` keeps what it held; the
cursor advances by the number of bytes read. -/
def fread (buf : List Byte) (n : Nat) (f : FileStream) : List Byte × FileStream :=
  let got := (f.bytes.drop f.pos).take n
  (got ++ buf.drop got.length, { f with pos := f.pos + got.length })

/-- Models `fseek(f, off, SEEK_SET)`. -/
def fseekSet (f : FileStream) (off : Nat) : FileStream :=
  { f with pos := off }

/-- Models `fseek(f, 0, SEEK_END)`. -/
def fseekEnd (f : FileStream) : FileStream :=
  { f with pos := f.bytes.length }

/-- Models `ftell(f)`. -/
def ftell (f : FileStream) : Nat :=
  f.pos

/-- The value of a byte stored into a plain `char`: `charSigned` tells whether
plain `char` is signed on the platform. -/
def toChar (charSigned : Bool) (b : Byte) : Int :=
  if charSigned ∧ 128 ≤ b.val then (b.val : Int) - 256 else (b.val : Int)

/-- The four bytes of a `uint32_t` in memory (little-endian host). -/
def u32Bytes (v : Nat) : List Byte :=
  [Fin.ofNat (v % 256), Fin.ofNat (v / 256 % 256), Fin.ofNat (v / 65536 % 256),
   Fin.ofNat (v / 16777216 % 256)]

/-- The `uint32_t` held by four bytes of memory (little-endian host). -/
def u32OfBytes (bs : List Byte) : Nat :=
  (bs.getD 0 0).val + 256 * (bs.getD 1 0).val + 65536 * (bs.getD 2 0).val
    + 16777216 * (bs.getD 3 0).val

/-- Models `fread(&field, sizeof(uint32_t), 1, f)` on a field holding `old`. -/
def freadU32 (old : Nat) (f : FileStream) : Nat × FileStream :=
  let r := fread (u32Bytes old) 4 f
  (u32OfBytes r.1, r.2)

/-- Models `Plink2Reader_readHeader` (src/main.c, lines 38-61). -/
def Plink2Reader_readHeader (charSigned : Bool) (junk : Nat → Byte) (reader : Plink2Reader) :
    Except ExitError Unit × Plink2Reader :=
  let m := fread (uninit junk 0 2) 2 reader.pgen_file
  let magic := m.1
  let reader := { reader with pgen_file := m.2 }
  if toChar charSigned (magic.getD 0 0) ≠ 0x6c ∨ toChar charSigned (magic.getD 1 0) ≠ 0x1b then
    (.error .invalidFormat, reader)
  else
    let s := fread (uninit junk 2 1) 1 reader.pgen_file
    let storage_mode := s.1
    let reader := { reader with pgen_file := s.2 }
    if toChar charSigned (storage_mode.getD 0 0) ≠ 0x10 then
      (.error .unsupportedMode, reader)
    else
      let v := freadU32 reader.variant_count reader.pgen_file
      let reader := { reader with variant_count := v.1, pgen_file := v.2 }
      let c := freadU32 reader.sample_count reader.pgen_file
      let reader := { reader with sample_count := c.1, pgen_file := c.2 }
      let reader := { reader with pgen_file := fseekEnd reader.pgen_file }
      let reader := { reader with file_size := ftell reader.pgen_file }
      let reader := { reader with pgen_file := fseekSet reader.pgen_file 11 }
      (.ok (), reader)

/-- The genotype matrix under construction: `none` is a cell that has been
allocated and not written yet. -/
abbrev Matrix := List (List (Option Int))

/-- Models `genotypes[row][col] = value` on the allocated matrix; a store
outside the allocation is a fault. -/
def storeCell (genotypes : Matrix) (row col : Nat) (value : Int) : Except ExitError Matrix :=
  match genotypes.get? row with
  | none => .error .memoryFault
  | some r =>
    if col < r.length then .ok (genotypes.set row (r.set col (some value)))
    else .error .memoryFault

/-- Lines 90-91: `int genotype = b & 0x03;` and the value stored,
`(genotype == 3) ? -1 : genotype`. -/
def decodeByte (b : Byte) : Int :=
  let genotype : Int := ((b.val &&& 0x03 : Nat) : Int)
  if genotype = 3 then -1 else genotype

/-- The body of the inner loop (lines 90-92): decode `file_chunk[file_chunk_index]`,
store it, advance the index.  The state is `(file_chunk_index, genotypes)`; a
read of `file_chunk` beyond its allocation is a fault. -/
def decodeStep (file_chunk : List Byte) (start_variant start_sample variant : Nat)
    (st : Nat × Matrix) (sample : Nat) : Except ExitError (Nat × Matrix) :=
  match file_chunk.get? st.1 with
  | none => .error .memoryFault
  | some b =>
    match storeCell st.2 (sample - start_sample) (variant - start_variant) (decodeByte b) with
    | .error e => .error e
    | .ok g => .ok ((st.1 + 1) % U32, g)

/-- The two nested `for` loops of lines 88-94. -/
def decodeLoop (file_chunk : List Byte) (start_variant end_variant start_sample end_sample : Nat)
    (st : Nat × Matrix) : Except ExitError (Nat × Matrix) :=
  (List.range' start_variant (end_variant - start_variant)).foldlM
    (fun st variant =>
      (List.range' start_sample (end_sample - start_sample)).foldlM
        (decodeStep file_chunk start_variant start_sample variant) st)
    st

/-- The offset of line 78, with the 32-bit product and sum of the source. -/
def startPos (sample_count start_variant start_sample : Nat) : Nat :=
  11 + ((start_variant * sample_count) % U32 + start_sample) % U32 / 4

/-- The byte count of line 81, a 32-bit product of two 32-bit differences. -/
def bytesToRead (start_variant end_variant start_sample end_sample : Nat) : Nat :=
  (((end_variant + U32 - start_variant) % U32) * ((end_sample + U32 - start_sample) % U32)) % U32

/-- Models `Plink2Reader_readGenotypesChunk` (src/main.c, lines 64-97); the
result is the matrix the function builds. -/
def Plink2Reader_readGenotypesChunk (junk : Nat → Byte) (reader : Plink2Reader)
    (start_variant end_variant start_sample end_sample : Nat) :
    Except ExitError Matrix × Plink2Reader :=
  if end_variant ≥ reader.variant_count ∨ end_sample ≥ reader.sample_count then
    (.error .outOfRange, reader)
  else
    let num_variants := (end_variant + U32 - start_variant) % U32
    let num_samples := (end_sample + U32 - start_sample) % U32
    let genotypes : Matrix := List.replicate num_samples (List.replicate num_variants none)
    let start_pos := startPos reader.sample_count start_variant start_sample
    let reader := { reader with pgen_file := fseekSet reader.pgen_file start_pos }
    let bytes_to_read := bytesToRead start_variant end_variant start_sample end_sample
    let c := fread (uninit junk 0 bytes_to_read) bytes_to_read reader.pgen_file
    let file_chunk := c.1
    let reader := { reader with pgen_file := c.2 }
    match decodeLoop file_chunk start_variant end_variant start_sample end_sample (0, genotypes) with
    | .error e => (.error e, reader)
    | .ok st => (.ok st.2, reader)


/-- The newline character. -/
def NL : Byte := 10

/-- The tab character, the only delimiter the source passes to `strtok`. -/
def TAB : Byte := 9

/-- The characters one `fgets` call takes from the unread input when the
buffer has room for `room` of them: up to and including the first newline. -/
def takeLine : Nat → List Byte → List Byte
  | 0, _ => []
  | _, [] => []
  | room + 1, c :: cs => if c = NL then [c] else c :: takeLine room cs

/-- Models `fgets(line, size, f)` on the buffer `line`: at end of file nothing
is read and the buffer is left alone; otherwise the characters read, then a
terminating zero, overwrite the front of the buffer. -/
def fgets (line : List Byte) (size : Nat) (f : FileStream) : List Byte × FileStream :=
  let got := takeLine (size - 1) (f.bytes.drop f.pos)
  if got = [] then (line, f)
  else (got ++ 0 :: line.drop (got.length + 1), { f with pos := f.pos + got.length })

/-- The C string held by a buffer: its bytes before the first zero. -/
def cstr (buf : List Byte) : List Byte :=
  buf.takeWhile (fun c => c ≠ 0)

/-- Models `strtok(line, "\t")`: leading tabs are skipped; `none` is the null
pointer returned when nothing else is left; otherwise the token runs to the
next tab or to the end of the string, and a zero is written over that tab.
Returns the token and the buffer as `strtok` leaves it. -/
def strtok (line : List Byte) : Option (List Byte) × List Byte :=
  let s := cstr line
  let lead := (s.takeWhile (fun c => c = TAB)).length
  let body := s.drop lead
  if body = [] then (none, line)
  else
    let tok := body.takeWhile (fun c => c ≠ TAB)
    (some tok, line.set (lead + tok.length) 0)

/-- The state of a metadata read: the line buffer, the table stream, and the
stores made so far into the caller's array, as pairs (index, string). -/
structure InfoState where
  line : List Byte
  file : FileStream
  stores : List (Nat × List Byte)
  deriving DecidableEq, Repr

/-- The loop of lines 113-116 (and 133-136) over the indices still to do:
`fgets`, then `ids[i - start] = strdup(strtok(line, "\t"))`; `strdup` of a null
pointer is a fault. -/
def readIds (start : Nat) : List Nat → InfoState → Except ExitError Unit × InfoState
  | [], st => (.ok (), st)
  | i :: rest, st =>
    let g := fgets st.line 1024 st.file
    let t := strtok g.1
    match t.1 with
    | none => (.error .memoryFault, { st with line := t.2, file := g.2 })
    | some tok =>
      readIds start rest { line := t.2, file := g.2, stores := st.stores ++ [(i - start, tok)] }

/-- Lines 106-116 of `Plink2Reader_readVariantInfoChunk`, which are lines
126-136 of `Plink2Reader_readSampleInfoChunk` on the other stream: one `fgets`
for the header line, `start` more to skip, then the identifier loop. -/
def readInfoLines (junk : Nat → Byte) (f : FileStream) (start stop : Nat) :
    Except ExitError (List (Nat × List Byte)) × FileStream :=
  let line := uninit junk 0 1024
  let h := fgets line 1024 f
  let s := (List.range' 0 start).foldl (fun st _ => fgets st.1 1024 st.2) h
  let r := readIds start (List.range' start (stop - start)) ⟨s.1, s.2, []⟩
  (r.1.map (fun _ => r.2.stores), r.2.file)

/-- Models `Plink2Reader_readVariantInfoChunk` (src/main.c, lines 100-117); the
result is the list of stores into `variant_ids`. -/
def Plink2Reader_readVariantInfoChunk (junk : Nat → Byte) (reader : Plink2Reader)
    (start_variant end_variant : Nat) :
    Except ExitError (List (Nat × List Byte)) × Plink2Reader :=
  if end_variant ≥ reader.variant_count then (.error .outOfRange, reader)
  else
    let r := readInfoLines junk reader.pvar_file start_variant end_variant
    (r.1, { reader with pvar_file := r.2 })

/-- Models `Plink2Reader_readSampleInfoChunk` (src/main.c, lines 120-137); the
result is the list of stores into `sample_ids`. -/
def Plink2Reader_readSampleInfoChunk (junk : Nat → Byte) (reader : Plink2Reader)
    (start_sample end_sample : Nat) :
    Except ExitError (List (Nat × List Byte)) × Plink2Reader :=
  if end_sample ≥ reader.sample_count then (.error .outOfRange, reader)
  else
    let r := readInfoLines junk reader.psam_file start_sample end_sample
    (r.1, { reader with psam_file := r.2 })

/-! ## Vocabulary of the statements -/

/-- What a matrix holds at row `r`, column `c`: `none` outside the allocation,
`some none` for a cell never written. -/
def cell (g : Matrix) (r c : Nat) : Option (Option Int) :=
  (g[r]?).bind (fun row => row[c]?)

/-- The matrix has `rows` rows of `cols` cells each. -/
def HasShape (g : Matrix) (rows cols : Nat) : Prop :=
  g.length = rows ∧ ∀ row ∈ g, row.length = cols

/-- The genotype of matrix cell `(v, s)` as the specification words it: with
`k = v * sample_count + s`, the 2-bit code at pair position `k mod 4` (lowest
pair first) of stream byte `11 + k / 4`, with 3 mapped to -1. -/
def packedGenotype (stream : List Byte) (sample_count v s : Nat) : Int :=
  let k := v * sample_count + s
  let code := ((stream.getD (11 + k / 4) 0).val >>> (2 * (k % 4))) &&& 3
  if code = 3 then -1 else (code : Int)

/-- A reader as `Plink2Reader_open` leaves it: three streams at their
beginning, header fields not read yet. -/
def freshReader (pgen pvar psam : List Byte) : Plink2Reader :=
  ⟨⟨pgen, 0⟩, ⟨pvar, 0⟩, ⟨psam, 0⟩, 0, 0, 0⟩

/-- Unwritten storage that happens to hold zeros. -/
def zeroJunk : Nat → Byte := fun _ => 0

/-- A 3 x 5 genotype file of the right length, 11 + ceil(15 / 4) bytes; its
first data byte holds the code 1 at each of its four pair positions. -/
def streamPacked : List Byte := [0x6C, 0x1B, 0x10, 3, 0, 0, 0, 5, 0, 0, 0, 0x55, 0, 0, 0]

/-- The 2 x 4 genotype file of the end-to-end scenario: two data bytes
`0b11100100`, `0b00011011`. -/
def streamTwoByFour : List Byte := [0x6C, 0x1B, 0x10, 2, 0, 0, 0, 4, 0, 0, 0, 0xE4, 0x1B]

/-- The head of a genotype file with `variant_count = 65538` and
`sample_count = 65536`. -/
def streamWideOffset : List Byte := [0x6C, 0x1B, 0x10, 2, 0, 1, 0, 0, 0, 1, 0, 0x01, 0x02]

/-- The head of a genotype file with `variant_count = sample_count = 65537`. -/
def streamWideWindow : List Byte := [0x6C, 0x1B, 0x10, 1, 0, 1, 0, 1, 0, 1, 0, 0x01, 0x02]

/-- The text of one data line of a table, given as the pair of its first
field and of what follows the first tab: field, tab, remainder, newline. -/
def rowLine (row : List Byte × List Byte) : List Byte :=
  row.1 ++ TAB :: (row.2 ++ [NL])

/-- The text of consecutive data lines. -/
def rowsBytes : List (List Byte × List Byte) → List Byte
  | [] => []
  | row :: rows => rowLine row ++ rowsBytes rows

/-- A table stream: the header line, the data lines, and whatever follows. -/
def tableBytes (header : List Byte) (rows : List (List Byte × List Byte)) (tail : List Byte) :
    List Byte :=
  header ++ NL :: (rowsBytes rows ++ tail)

/-- A data line of text with a non-empty first field followed by a tab, the
whole line, newline included, shorter than the 1024-byte buffer: the field
holds no tab, no newline and no zero byte, the remainder no newline. -/
def RowOk (row : List Byte × List Byte) : Prop :=
  row.1 ≠ [] ∧ TAB ∉ row.1 ∧ NL ∉ row.1 ∧ (0 : Byte) ∉ row.1 ∧ NL ∉ row.2 ∧
    (rowLine row).length < 1024

/-- The stores that put, for each `i` from `start` up to `stop`, the first
field of data row `i` at output index `i - start`. -/
def expectedStores (rows : List (List Byte × List Byte)) (start stop : Nat) :
    List (Nat × List Byte) :=
  (List.range' start (stop - start)).map (fun i => (i - start, (rows.getD i ([], [])).1))

instance instDecidableRowOk (row : List Byte × List Byte) : Decidable (RowOk row) := by
  unfold RowOk
  infer_instance

/-- The header line `ID<tab>OTHER` of the example table. -/
def exampleHeader : List Byte := [73, 68, 9, 79, 84, 72, 69, 82]

/-- The data rows `v0<tab>x`, `v1<tab>y`, `v2<tab>z` of the example table. -/
def exampleRows : List (List Byte × List Byte) :=
  [([118, 48], [120]), ([118, 49], [121]), ([118, 50], [122])]

/-- A reader bound to the example table on both table streams, with counts of
4, so that a range ending at 3 passes the range check. -/
def exampleReader : Plink2Reader :=
  ⟨⟨[], 0⟩, ⟨tableBytes exampleHeader exampleRows [], 0⟩,
    ⟨tableBytes exampleHeader exampleRows [], 0⟩, 4, 4, 0⟩

/-- A reader bound to the example table with `variant_count = sample_count = 3`,
one data row per variant. -/
def exampleReaderThree : Plink2Reader :=
  ⟨⟨[], 0⟩, ⟨tableBytes exampleHeader exampleRows [], 0⟩,
    ⟨tableBytes exampleHeader exampleRows [], 0⟩, 3, 3, 0⟩

/-- The text of a line up to, and not including, its first tab, as the
specification words the identifier of a data line. -/
def firstField (line : List Byte) : List Byte :=
  line.takeWhile (fun c => c ≠ TAB)

/-- A table whose header line is `ID<tab>OTHER` and whose data lines are
`<tab>v0<tab>x`, with an empty first field, and `ab`, with no tab. -/
def oddTable : List Byte :=
  exampleHeader ++ [NL] ++ ([9, 118, 48, 9, 120] ++ [NL]) ++ ([97, 98] ++ [NL])

/-- A reader bound to `oddTable` on both table streams, with counts of 3. -/
def oddReader : Plink2Reader :=
  ⟨⟨[], 0⟩, ⟨oddTable, 0⟩, ⟨oddTable, 0⟩, 3, 3, 0⟩

/-- The map `d` of the literal decoding: 3 goes to -1 and 0, 1, 2 to
themselves. -/
def lowBitsGenotype (x : Nat) : Int :=
  if x = 3 then -1 else (x : Int)

/-- Unwritten storage that happens to hold bytes 0xFF. -/
def onesJunk : Nat → Byte := fun _ => 255

/-- The head of a genotype file with `variant_count = 2147483649` and
`sample_count = 3`. -/
def streamTallWindow : List Byte := [0x6C, 0x1B, 0x10, 1, 0, 0, 0x80, 3, 0, 0, 0, 0x01, 0x02]

/-- Five data rows `v0<tab>x` to `v4<tab>x`. -/
def fiveRows : List (List Byte × List Byte) :=
  [([118, 48], [120]), ([118, 49], [120]), ([118, 50], [120]), ([118, 51], [120]),
    ([118, 52], [120])]

/-- A reader bound to the table of `fiveRows` on both table streams, with
counts of 6. -/
def fiveRowReader : Plink2Reader :=
  ⟨⟨[], 0⟩, ⟨tableBytes exampleHeader fiveRows [], 0⟩,
    ⟨tableBytes exampleHeader fiveRows [], 0⟩, 6, 6, 0⟩

/-- One chunk read together with its arguments and with the contents of the
unwritten storage it meets. -/
inductive ChunkCall where
  | genotypes (junk : Nat → Byte) (start_variant end_variant start_sample end_sample : Nat)
  | variantInfo (junk : Nat → Byte) (start_variant end_variant : Nat)
  | sampleInfo (junk : Nat → Byte) (start_sample end_sample : Nat)

/-- The reader that a chunk read leaves behind. -/
def ChunkCall.after (reader : Plink2Reader) : ChunkCall → Plink2Reader
  | .genotypes junk sv ev ss es => (Plink2Reader_readGenotypesChunk junk reader sv ev ss es).2
  | .variantInfo junk s e => (Plink2Reader_readVariantInfoChunk junk reader s e).2
  | .sampleInfo junk s e => (Plink2Reader_readSampleInfoChunk junk reader s e).2

/-- The reader left behind by a sequence of chunk reads. -/
def afterCalls (reader : Plink2Reader) (calls : List ChunkCall) : Plink2Reader :=
  calls.foldl ChunkCall.after reader

/-! ## Lemmas on the genotype decoder -/
/-- The matrix as allocated on lines 73-76 has the shape asked for. -/
theorem hasShape_replicate (rows cols : Nat) :
    HasShape (List.replicate rows (List.replicate cols none)) rows cols := by
  refine ⟨by simp, ?_⟩
  intro row hrow
  rw [List.eq_of_mem_replicate hrow]
  simp


/-- A store inside the allocation succeeds, keeps the shape and changes the one
cell it targets. -/
theorem storeCell_ok {g : Matrix} {rows cols r c : Nat} (hs : HasShape g rows cols)
    (hr : r < rows) (hc : c < cols) (v : Int) :
    ∃ g', storeCell g r c v = .ok g' ∧ HasShape g' rows cols ∧
      ∀ r' c', cell g' r' c' = if r' = r ∧ c' = c then some (some v) else cell g r' c' := by
  obtain ⟨hlen, hrow⟩ := hs
  have hr' : r < g.length := by omega
  have hrowlen : (g[r]).length = cols := hrow _ (List.getElem_mem _)
  refine ⟨g.set r ((g[r]).set c (some v)), ?_, ⟨by simp [hlen], ?_⟩, ?_⟩
  · simp [storeCell, List.get?_eq_getElem?, List.getElem?_eq_getElem hr', hrowlen, hc]
  · intro row hmem
    rcases List.mem_or_eq_of_mem_set hmem with h | h
    · exact hrow _ h
    · rw [h]; simp [hrowlen]
  · intro r' c'
    by_cases h1 : r' = r
    · subst h1
      by_cases h2 : c' = c
      · subst h2
        simp [cell, List.getElem?_set, hr', hrowlen, hc]
      · have h2' : ¬ c = c' := fun h => h2 h.symm
        simp [cell, List.getElem?_set, hr', h2, h2', List.getElem?_eq_getElem hr']
    · have h1' : ¬ r = r' := fun h => h1 h.symm
      simp [cell, List.getElem?_set, h1, h1']

/-- One pass of the body inside the allocation: the byte at the index is
decoded into the cell and the index moves on by one. -/
theorem decodeStep_ok (chunk : List Byte) (sv ss variant sample k : Nat) {rows cols : Nat}
    {g : Matrix} (hs : HasShape g rows cols) (hr : sample - ss < rows) (hc : variant - sv < cols)
    (hk : k < chunk.length) (hk32 : k + 1 < U32) :
    ∃ g', decodeStep chunk sv ss variant (k, g) sample = .ok (k + 1, g') ∧ HasShape g' rows cols ∧
      ∀ r c, cell g' r c =
        if r = sample - ss ∧ c = variant - sv then some (some (decodeByte (chunk.getD k 0)))
        else cell g r c := by
  obtain ⟨g', h1, h2, h3⟩ := storeCell_ok hs hr hc (decodeByte (chunk.getD k 0))
  refine ⟨g', ?_, h2, h3⟩
  have hget : chunk.getD k 0 = chunk[k] := by
    simp [List.getD, List.getElem?_eq_getElem hk]
  rw [hget] at h1
  simp [decodeStep, List.get?_eq_getElem?, List.getElem?_eq_getElem hk, h1, Nat.mod_eq_of_lt hk32]

/-- The inner loop over `n` samples of one variant. -/
theorem innerLoop_ok (chunk : List Byte) (sv ss variant rows cols : Nat)
    (hc : variant - sv < cols) :
    ∀ (n k : Nat) (g : Matrix), HasShape g rows cols → n ≤ rows → k + n ≤ chunk.length →
      k + n < U32 →
      ∃ g', (List.range' ss n).foldlM (decodeStep chunk sv ss variant) (k, g) = .ok (k + n, g') ∧
        HasShape g' rows cols ∧
        ∀ r c, cell g' r c =
          if c = variant - sv ∧ r < n then some (some (decodeByte (chunk.getD (k + r) 0)))
          else cell g r c := by
  intro n
  induction n with
  | zero =>
    intro k g hs _ _ _
    exact ⟨g, by simp [pure, Except.pure], hs, by simp⟩
  | succ n ih =>
    intro k g hs hn hlen h32
    obtain ⟨g1, e1, s1, c1⟩ := ih k g hs (by omega) (by omega) (by omega)
    obtain ⟨g2, e2, s2, c2⟩ := decodeStep_ok chunk sv ss variant (ss + n) (k + n)
      s1 (by omega) hc (by omega) (by omega)
    refine ⟨g2, ?_, s2, ?_⟩
    · rw [List.range'_concat, List.foldlM_append, e1]
      simp only [Nat.one_mul]
      show (List.foldlM (decodeStep chunk sv ss variant) (k + n, g1) [ss + n]) = _
      simp [List.foldlM, e2, bind, Except.bind, pure, Except.pure, Nat.add_assoc]
    · intro r c
      rw [c2, c1]
      have : ss + n - ss = n := by omega
      rw [this]
      by_cases hcc : c = variant - sv
      · by_cases hrn : r = n
        · subst hrn; simp [hcc]
        · by_cases hlt : r < n
          · have : r < n + 1 := by omega
            simp [hcc, hrn, hlt, this]
          · have : ¬ r < n + 1 := by omega
            simp [hcc, hrn, hlt, this]
      · simp [hcc]

/-- The two nested loops over `m` variants of `rows` samples each. -/
theorem outerLoop_ok (chunk : List Byte) (sv ss es rows cols : Nat) (hrows : es - ss = rows) :
    ∀ (m k : Nat) (g : Matrix), HasShape g rows cols → m ≤ cols → k + m * rows ≤ chunk.length →
      k + m * rows < U32 →
      ∃ g', (List.range' sv m).foldlM
          (fun st variant =>
            (List.range' ss (es - ss)).foldlM (decodeStep chunk sv ss variant) st) (k, g)
          = .ok (k + m * rows, g') ∧
        HasShape g' rows cols ∧
        ∀ r c, cell g' r c =
          if c < m ∧ r < rows then some (some (decodeByte (chunk.getD (k + c * rows + r) 0)))
          else cell g r c := by
  intro m
  induction m with
  | zero =>
    intro k g hs _ _ _
    exact ⟨g, by simp [pure, Except.pure], hs, by simp⟩
  | succ m ih =>
    intro k g hs hm hlen h32
    have hmul : (m + 1) * rows = m * rows + rows := Nat.succ_mul m rows
    obtain ⟨g1, e1, s1, c1⟩ := ih k g hs (by omega) (by omega) (by omega)
    obtain ⟨g2, e2, s2, c2⟩ := innerLoop_ok chunk sv ss (sv + m) rows cols (by omega)
      rows (k + m * rows) g1 s1 (Nat.le_refl _) (by omega) (by omega)
    refine ⟨g2, ?_, s2, ?_⟩
    · rw [List.range'_concat, List.foldlM_append, e1]
      simp only [Nat.one_mul]
      simp only [List.foldlM, bind, Except.bind, pure, Except.pure]
      rw [hrows, e2, hmul, Nat.add_assoc]
    · intro r c
      rw [c2, c1]
      have : sv + m - sv = m := by omega
      rw [this]
      by_cases hrr : r < rows
      · by_cases hcm : c = m
        · subst hcm; simp [hrr]
        · by_cases hlt : c < m
          · have : c < m + 1 := by omega
            simp [hcm, hrr, hlt, this]
          · have : ¬ c < m + 1 := by omega
            simp [hcm, hrr, hlt, this]
      · simp [hrr]


/-- A fold in `Except` can only stop with an error that one of its steps raises. -/
theorem foldlM_error_of {σ α ε : Type} (P : ε → Prop) (f : σ → α → Except ε σ)
    (hf : ∀ s a e, f s a = .error e → P e) :
    ∀ (l : List α) (s : σ) (e : ε), l.foldlM f s = .error e → P e := by
  intro l
  induction l with
  | nil => intro s e h; simp [pure, Except.pure] at h
  | cons a l ih =>
    intro s e h
    rw [List.foldlM_cons] at h
    cases hfa : f s a with
    | error e' =>
      rw [hfa] at h
      simp only [bind, Except.bind] at h
      cases h
      exact hf s a e hfa
    | ok s' =>
      rw [hfa] at h
      exact ih s' e h

/-- A store can only stop with a memory fault. -/
theorem storeCell_error {g : Matrix} {r c : Nat} {v : Int} {e : ExitError}
    (h : storeCell g r c v = .error e) : e = .memoryFault := by
  unfold storeCell at h
  split at h
  · cases h; rfl
  · split at h
    · cases h
    · cases h; rfl

/-- The loop body can only stop with a memory fault. -/
theorem decodeStep_error {chunk : List Byte} {sv ss variant sample : Nat} {st : Nat × Matrix}
    {e : ExitError} (h : decodeStep chunk sv ss variant st sample = .error e) :
    e = .memoryFault := by
  unfold decodeStep at h
  split at h
  · cases h; rfl
  · split at h
    · rename_i e' he
      cases h
      exact storeCell_error he
    · cases h

/-- The decode loops can only stop with a memory fault. -/
theorem decodeLoop_error {chunk : List Byte} {sv ev ss es : Nat} {st : Nat × Matrix}
    {e : ExitError} (h : decodeLoop chunk sv ev ss es st = .error e) : e = .memoryFault := by
  unfold decodeLoop at h
  refine foldlM_error_of (fun e => e = .memoryFault) _ ?_ _ _ _ h
  intro s variant e' h'
  exact foldlM_error_of (fun e => e = .memoryFault) _
    (fun s a e'' h'' => decodeStep_error h'') _ _ _ h'

/-- With no sample to visit, the outer loop leaves its state alone. -/
theorem outerLoop_no_sample (chunk : List Byte) (sv ss : Nat) :
    ∀ (l : List Nat) (st : Nat × Matrix),
      l.foldlM (fun st variant =>
        ([] : List Nat).foldlM (decodeStep chunk sv ss variant) st) st = .ok st := by
  intro l
  induction l with
  | nil => intro st; rfl
  | cons a l ih =>
    intro st
    rw [List.foldlM_cons]
    simp only [List.foldlM_nil, pure, Except.pure, bind, Except.bind]
    exact ih st

/-- The block `file_chunk` has `n` bytes however many of them `fread` fills. -/
theorem length_fread_uninit (junk : Nat → Byte) (n : Nat) (f : FileStream) :
    (fread (uninit junk 0 n) n f).1.length = n := by
  simp [fread, uninit]

/-- A 32-bit difference of a value and a smaller one is the plain difference. -/
theorem u32_sub (a b : Nat) (ha : a < U32) (hb : b ≤ a) : (a + U32 - b) % U32 = a - b := by
  have : a + U32 - b = (a - b) + U32 := by omega
  rw [this, Nat.add_mod_right]
  exact Nat.mod_eq_of_lt (by omega)

/-- When the range check passes, no range is reversed and the number of cells
fits 32 bits, the call returns a matrix of the shape of the window whose cell
at row `r`, column `c` is decoded from byte `c * (es - ss) + r` of the block
read at the seek offset. -/
theorem readGenotypesChunk_ok (junk : Nat → Byte) (reader : Plink2Reader) (sv ev ss es : Nat)
    (hv : ev < reader.variant_count) (hs : es < reader.sample_count)
    (hev : ev < U32) (hes : es < U32) (hsv : sv ≤ ev) (hss : ss ≤ es)
    (hprod : (ev - sv) * (es - ss) < U32) :
    ∃ m, Plink2Reader_readGenotypesChunk junk reader sv ev ss es
        = (.ok m, { reader with pgen_file :=
            (fread (uninit junk 0 ((ev - sv) * (es - ss))) ((ev - sv) * (es - ss))
              (fseekSet reader.pgen_file (startPos reader.sample_count sv ss))).2 }) ∧
      HasShape m (es - ss) (ev - sv) ∧
      ∀ r c, r < es - ss → c < ev - sv →
        cell m r c = some (some (decodeByte
          ((fread (uninit junk 0 ((ev - sv) * (es - ss))) ((ev - sv) * (es - ss))
            (fseekSet reader.pgen_file (startPos reader.sample_count sv ss))).1.getD
              (c * (es - ss) + r) 0))) := by
  have hb : bytesToRead sv ev ss es = (ev - sv) * (es - ss) := by
    unfold bytesToRead
    rw [u32_sub ev sv hev hsv, u32_sub es ss hes hss, Nat.mod_eq_of_lt hprod]
  obtain ⟨g', e1, s1, c1⟩ := outerLoop_ok
    (fread (uninit junk 0 ((ev - sv) * (es - ss))) ((ev - sv) * (es - ss))
      (fseekSet reader.pgen_file (startPos reader.sample_count sv ss))).1
    sv ss es (es - ss) (ev - sv) rfl (ev - sv) 0
    (List.replicate (es - ss) (List.replicate (ev - sv) none))
    (hasShape_replicate _ _) (Nat.le_refl _)
    (by rw [length_fread_uninit]; omega) (by omega)
  refine ⟨g', ?_, s1, ?_⟩
  · have hguard : ¬ (ev ≥ reader.variant_count ∨ es ≥ reader.sample_count) := by omega
    unfold Plink2Reader_readGenotypesChunk
    rw [if_neg hguard]
    simp only [hb, u32_sub ev sv hev hsv, u32_sub es ss hes hss, decodeLoop]
    rw [e1]
  · intro r c hr hc
    rw [c1 r c]
    simp [hr, hc]


/-- When the range check passes and one of the two ranges is empty or reversed,
the loops visit no cell and the call returns. -/
theorem readGenotypesChunk_no_cell (junk : Nat → Byte) (reader : Plink2Reader)
    (sv ev ss es : Nat) (hv : ev < reader.variant_count) (hs : es < reader.sample_count)
    (hempty : ev ≤ sv ∨ es ≤ ss) :
    ∃ m, (Plink2Reader_readGenotypesChunk junk reader sv ev ss es).1 = .ok m := by
  have hguard : ¬ (ev ≥ reader.variant_count ∨ es ≥ reader.sample_count) := by omega
  unfold Plink2Reader_readGenotypesChunk
  rw [if_neg hguard]
  simp only [decodeLoop]
  rcases hempty with h | h
  · rw [Nat.sub_eq_zero_of_le h]
    exact ⟨_, rfl⟩
  · rw [Nat.sub_eq_zero_of_le h]
    simp only [List.range'_zero]
    rw [outerLoop_no_sample]
    exact ⟨_, rfl⟩

/-- A decoded byte is one of -1, 0, 1, 2: only its two low bits count. -/
theorem decodeByte_mem (b : Byte) :
    decodeByte b = -1 ∨ decodeByte b = 0 ∨ decodeByte b = 1 ∨ decodeByte b = 2 := by
  have h : b.val &&& 0x03 = b.val % 4 := Nat.and_pow_two_sub_one_eq_mod b.val 2
  unfold decodeByte
  simp only [h]
  have : b.val % 4 < 4 := Nat.mod_lt _ (by decide)
  split <;> omega

/-- Whenever the range check passes, both ranges are non-empty and the number
of cells fits 32 bits, the matrix built has the shape of the window and every
cell of it is written with one of -1, 0, 1, 2, whatever the stream holds. -/
theorem readGenotypesChunk_shape_and_range (junk : Nat → Byte) (reader : Plink2Reader)
    (sv ev ss es : Nat) (hv : ev < reader.variant_count) (hs : es < reader.sample_count)
    (hev : ev < U32) (hes : es < U32) (hsv : sv < ev) (hss : ss < es)
    (hprod : (ev - sv) * (es - ss) < U32) :
    ∃ m, (Plink2Reader_readGenotypesChunk junk reader sv ev ss es).1 = .ok m ∧
      HasShape m (es - ss) (ev - sv) ∧
      ∀ r c, r < es - ss → c < ev - sv →
        ∃ x : Int, cell m r c = some (some x) ∧ (x = -1 ∨ x = 0 ∨ x = 1 ∨ x = 2) := by
  obtain ⟨m, h1, h2, h3⟩ := readGenotypesChunk_ok junk reader sv ev ss es hv hs hev hes
    (Nat.le_of_lt hsv) (Nat.le_of_lt hss) hprod
  refine ⟨m, by rw [h1], h2, ?_⟩
  intro r c hr hc
  exact ⟨_, h3 r c hr hc, decodeByte_mem _⟩

/-! ## Lemmas on the header reader -/

/-- A plain `char` equals a constant below 128 exactly when the byte does,
whatever the signedness of `char`. -/
theorem toChar_eq_iff (charSigned : Bool) (b : Byte) (v : Nat) (hv : v < 128) :
    toChar charSigned b = (v : Int) ↔ b.val = v := by
  unfold toChar
  have hb := b.isLt
  split <;> omega


/-! ## Lemmas on the metadata readers -/

/-- A line with room to spare is taken up to and including its newline. -/
theorem takeLine_line (l rest : List Byte) (hl : NL ∉ l) :
    ∀ room, l.length < room → takeLine room (l ++ NL :: rest) = l ++ [NL] := by
  induction l with
  | nil =>
    intro room h
    cases room with
    | zero => omega
    | succ room => simp [takeLine]
  | cons c cs ih =>
    intro room h
    cases room with
    | zero => simp at h
    | succ room =>
      have hc : c ≠ NL := fun h' => hl (by simp [h'])
      have hcs : NL ∉ cs := fun h' => hl (List.mem_cons_of_mem _ h')
      have ih' := ih hcs room (by simpa using h)
      simp only [List.cons_append, takeLine, if_neg hc]
      exact congrArg (List.cons c) ih'

/-- One `fgets` on a stream whose unread part begins with a line that fits
the buffer: the line is taken whole and the cursor moves past its newline. -/
theorem fgets_line (buf : List Byte) (f : FileStream) (l rest : List Byte)
    (h : f.bytes.drop f.pos = l ++ NL :: rest) (hl : NL ∉ l) (hlen : l.length + 1 < 1024) :
    fgets buf 1024 f
      = (l ++ [NL] ++ 0 :: buf.drop (l.length + 1 + 1), ⟨f.bytes, f.pos + (l.length + 1)⟩)
    ∧ f.bytes.drop (f.pos + (l.length + 1)) = rest := by
  constructor
  · unfold fgets
    rw [h, takeLine_line l rest hl (1024 - 1) (by omega)]
    simp
  · rw [← List.drop_drop, h]
    simp

/-- The C string of a buffer starts with any zero-free text the buffer starts
with. -/
theorem cstr_append (l rest : List Byte) (hl : (0 : Byte) ∉ l) :
    cstr (l ++ rest) = l ++ cstr rest := by
  unfold cstr
  apply List.takeWhile_append_of_pos
  intro a ha
  simp only [ne_eq, decide_not, Bool.not_eq_eq_eq_not, Bool.not_true, decide_eq_false_iff_not]
  rintro rfl
  exact hl ha

/-- The token `strtok` finds in a buffer that starts with a non-empty field
followed by a tab is that field. -/
theorem strtok_field (field rest : List Byte) (hne : field ≠ []) (htab : TAB ∉ field)
    (hzero : (0 : Byte) ∉ field) :
    (strtok (field ++ TAB :: rest)).1 = some field := by
  obtain ⟨c, cs, rfl⟩ := List.exists_cons_of_ne_nil hne
  have hc : c ≠ TAB := fun h' => htab (by simp [h'])
  have hc0 : c ≠ 0 := fun h' => hzero (by simp [h'])
  have hT0 : TAB ≠ (0 : Byte) := by decide
  have hs : cstr (c :: cs ++ TAB :: rest) = (c :: cs) ++ TAB :: cstr rest := by
    rw [cstr_append _ _ hzero]
    simp [cstr, List.takeWhile_cons, hT0]
  have htok : ((c :: cs) ++ TAB :: cstr rest).takeWhile (fun x => x ≠ TAB) = c :: cs := by
    rw [List.takeWhile_append_of_pos]
    · simp
    · intro a ha
      simp only [ne_eq, decide_not, Bool.not_eq_eq_eq_not, Bool.not_true, decide_eq_false_iff_not]
      rintro rfl
      exact htab ha
  unfold strtok
  simp only [hs]
  have hlead : (((c :: cs) ++ TAB :: cstr rest).takeWhile (fun x => x = TAB)) = [] := by
    simp [List.takeWhile_cons, hc]
  simp only [hlead, List.length_nil, List.drop_zero, htok]
  simp


/-- What is left unread after consuming a known front of the unread part. -/
theorem drop_after {bytes l t : List Byte} {p : Nat} (h : bytes.drop p = l ++ t) :
    bytes.drop (p + l.length) = t := by
  rw [← List.drop_drop, h]
  simp

/-- The text of two runs of data lines is the text of the first followed by
the text of the second. -/
theorem rowsBytes_append (xs ys : List (List Byte × List Byte)) :
    rowsBytes (xs ++ ys) = rowsBytes xs ++ rowsBytes ys := by
  induction xs with
  | nil => rfl
  | cons x xs ih => simp [rowsBytes, ih]

/-- A data line seen as a line for `fgets`: its text before the newline holds
no newline and fits. -/
theorem rowLine_split (row : List Byte × List Byte) (h : RowOk row) :
    rowLine row = (row.1 ++ TAB :: row.2) ++ [NL] ∧ NL ∉ (row.1 ++ TAB :: row.2) ∧
      (row.1 ++ TAB :: row.2).length + 1 < 1024 := by
  obtain ⟨_, _, h3, _, h5, h6⟩ := h
  refine ⟨by simp [rowLine], ?_, ?_⟩
  · intro hmem
    rcases List.mem_append.1 hmem with h' | h'
    · exact h3 h'
    · rcases List.mem_cons.1 h' with h'' | h''
      · exact absurd h'' (by decide)
      · exact h5 h''
  · simpa [rowLine, Nat.add_assoc] using h6

/-- The skipping loop of lines 109-111 over well-formed data lines: each pass
consumes exactly one line. -/
theorem skip_rows : ∀ (rows : List (List Byte × List Byte)) (a : Nat) (buf : List Byte)
    (f : FileStream) (tail : List Byte), (∀ row ∈ rows, RowOk row) →
    f.bytes.drop f.pos = rowsBytes rows ++ tail →
    ∃ buf', (List.range' a rows.length).foldl (fun st _ => fgets st.1 1024 st.2) (buf, f)
      = (buf', ⟨f.bytes, f.pos + (rowsBytes rows).length⟩) := by
  intro rows
  induction rows with
  | nil =>
    intro a buf f tail _ _
    exact ⟨buf, by simp [rowsBytes]⟩
  | cons row rows ih =>
    intro a buf f tail hok h
    obtain ⟨hsplit, hnl, hlen⟩ := rowLine_split row (hok row (List.mem_cons_self _ _))
    have h' : f.bytes.drop f.pos
        = (row.1 ++ TAB :: row.2) ++ NL :: (rowsBytes rows ++ tail) := by
      rw [h, rowsBytes, hsplit]; simp
    obtain ⟨e1, d1⟩ := fgets_line buf f _ _ h' hnl hlen
    obtain ⟨buf', e2⟩ := ih (a + 1) (fgets buf 1024 f).1 (fgets buf 1024 f).2 tail
      (fun r hr => hok r (List.mem_cons_of_mem _ hr)) (by rw [e1]; exact d1)
    refine ⟨buf', ?_⟩
    simp only [List.length_cons, List.range'_succ, List.foldl_cons]
    rw [e2, e1]
    simp only [rowsBytes, hsplit, List.length_append, List.length_cons, List.length_nil]
    simp [Nat.add_assoc]

/-- The identifier loop of lines 113-116 over well-formed data lines: each pass
consumes one line and stores its first field at the next index. -/
theorem readIds_rows (start : Nat) : ∀ (rows : List (List Byte × List Byte)) (a : Nat)
    (buf : List Byte) (f : FileStream) (acc : List (Nat × List Byte)) (tail : List Byte),
    (∀ row ∈ rows, RowOk row) → f.bytes.drop f.pos = rowsBytes rows ++ tail →
    ∃ buf', readIds start (List.range' a rows.length) ⟨buf, f, acc⟩
      = (.ok (), ⟨buf', ⟨f.bytes, f.pos + (rowsBytes rows).length⟩,
          acc ++ List.zipWith (fun i row => (i - start, row.1))
            (List.range' a rows.length) rows⟩) := by
  intro rows
  induction rows with
  | nil =>
    intro a buf f acc tail _ _
    exact ⟨buf, by simp [rowsBytes, readIds]⟩
  | cons row rows ih =>
    intro a buf f acc tail hok h
    have hrow := hok row (List.mem_cons_self _ _)
    obtain ⟨hsplit, hnl, hlen⟩ := rowLine_split row hrow
    have h' : f.bytes.drop f.pos
        = (row.1 ++ TAB :: row.2) ++ NL :: (rowsBytes rows ++ tail) := by
      rw [h, rowsBytes, hsplit]; simp
    obtain ⟨e1, d1⟩ := fgets_line buf f _ _ h' hnl hlen
    have htok : (strtok (fgets buf 1024 f).1).1 = some row.1 := by
      rw [e1]
      simp only [List.append_assoc, List.cons_append]
      exact strtok_field row.1 _ hrow.1 hrow.2.1 hrow.2.2.2.1
    obtain ⟨buf', e2⟩ := ih (a + 1) (strtok (fgets buf 1024 f).1).2 (fgets buf 1024 f).2
      (acc ++ [(a - start, row.1)]) tail
      (fun r hr => hok r (List.mem_cons_of_mem _ hr)) (by rw [e1]; exact d1)
    refine ⟨buf', ?_⟩
    simp only [List.length_cons, List.range'_succ, readIds, htok]
    rw [e2, e1]
    simp only [rowsBytes, hsplit, List.length_append, List.length_cons, List.length_nil,
      List.zipWith_cons_cons, List.append_assoc, List.singleton_append]
    simp [Nat.add_assoc]
    omega

/-- Pairing the indices `a .. a + n - 1` with the rows at those indices is
mapping over the indices. -/
theorem zipWith_range_slice (start : Nat) (rows : List (List Byte × List Byte)) :
    ∀ (n a : Nat), a + n ≤ rows.length →
      List.zipWith (fun i row => (i - start, row.1)) (List.range' a n) ((rows.drop a).take n)
        = (List.range' a n).map (fun i => (i - start, (rows.getD i ([], [])).1)) := by
  intro n
  induction n with
  | zero => intro a _; simp
  | succ n ih =>
    intro a h
    have ha : a < rows.length := by omega
    rw [List.drop_eq_getElem_cons ha]
    simp only [List.take_succ_cons, List.range'_succ, List.zipWith_cons_cons, List.map_cons]
    rw [ih (a + 1) (by omega)]
    simp [List.getD, List.getElem?_eq_getElem ha]


/-- On a well-formed table read from its beginning, lines 106-116 skip the
header line and `start` data lines, then store the first fields of data rows
`start` to `stop - 1` in order, and leave the cursor after data row `stop - 1`. -/
theorem readInfoLines_table (junk : Nat → Byte) (header : List Byte)
    (rows : List (List Byte × List Byte)) (tail : List Byte) (start stop : Nat)
    (hh : NL ∉ header) (hhl : header.length + 1 < 1024) (hok : ∀ row ∈ rows, RowOk row)
    (hss : start ≤ stop) (hstop : stop ≤ rows.length) :
    readInfoLines junk ⟨tableBytes header rows tail, 0⟩ start stop
      = (.ok (expectedStores rows start stop),
          ⟨tableBytes header rows tail, (header ++ NL :: rowsBytes (rows.take stop)).length⟩) := by
  have hA : (rows.take start).length = start := by simp; omega
  have hB : ((rows.drop start).take (stop - start)).length = stop - start := by simp; omega
  have hAB : rows.take stop = rows.take start ++ (rows.drop start).take (stop - start) := by
    have : stop = start + (stop - start) := by omega
    conv_lhs => rw [this]
    rw [List.take_add]
  have hrows : rows = rows.take start ++ ((rows.drop start).take (stop - start) ++ rows.drop stop) := by
    rw [← List.append_assoc, ← hAB, List.take_append_drop]
  have hokA : ∀ row ∈ rows.take start, RowOk row := fun r hr => hok r (List.mem_of_mem_take hr)
  have hokB : ∀ row ∈ (rows.drop start).take (stop - start), RowOk row :=
    fun r hr => hok r (List.mem_of_mem_drop (List.mem_of_mem_take hr))
  have h0 : (⟨tableBytes header rows tail, 0⟩ : FileStream).bytes.drop
      (⟨tableBytes header rows tail, 0⟩ : FileStream).pos
        = header ++ NL :: (rowsBytes rows ++ tail) := by
    simp [tableBytes]
  obtain ⟨e0, d0⟩ := fgets_line (uninit junk 0 1024) _ _ _ h0 hh hhl
  have d0' : (fgets (uninit junk 0 1024) 1024 ⟨tableBytes header rows tail, 0⟩).2.bytes.drop
      (fgets (uninit junk 0 1024) 1024 ⟨tableBytes header rows tail, 0⟩).2.pos
        = rowsBytes (rows.take start)
          ++ (rowsBytes ((rows.drop start).take (stop - start)) ++ (rowsBytes (rows.drop stop) ++ tail)) := by
    rw [e0]
    simp only
    rw [d0]
    conv_lhs => rw [hrows]
    simp [rowsBytes_append]
  obtain ⟨buf1, e1⟩ := skip_rows (rows.take start) 0
    (fgets (uninit junk 0 1024) 1024 ⟨tableBytes header rows tail, 0⟩).1
    (fgets (uninit junk 0 1024) 1024 ⟨tableBytes header rows tail, 0⟩).2 _ hokA d0'
  rw [hA] at e1
  obtain ⟨buf2, e2⟩ := readIds_rows start ((rows.drop start).take (stop - start)) start buf1
    ⟨(fgets (uninit junk 0 1024) 1024 ⟨tableBytes header rows tail, 0⟩).2.bytes,
      (fgets (uninit junk 0 1024) 1024 ⟨tableBytes header rows tail, 0⟩).2.pos
        + (rowsBytes (rows.take start)).length⟩ [] (rowsBytes (rows.drop stop) ++ tail) hokB
    (drop_after d0')
  rw [hB] at e2
  unfold readInfoLines
  simp only
  rw [e1, e2]
  simp only [Except.map, List.nil_append]
  rw [zipWith_range_slice start rows (stop - start) start (by omega), e0, hAB]
  simp only [expectedStores, rowsBytes_append, List.length_append, List.length_cons]
  simp [Nat.add_assoc]
  omega


/-- The identifier loop can only stop with a memory fault (`strdup` of a null
pointer). -/
theorem readIds_error (start : Nat) : ∀ (l : List Nat) (st : InfoState) (e : ExitError),
    (readIds start l st).1 = .error e → e = .memoryFault := by
  intro l
  induction l with
  | nil => intro st e h; simp [readIds] at h
  | cons i l ih =>
    intro st e h
    unfold readIds at h
    simp only at h
    split at h
    · cases h; rfl
    · exact ih _ e h

/-- The shared body of the metadata readers never stops with the out-of-range
error: that error comes from the range check alone. -/
theorem readInfoLines_not_outOfRange (junk : Nat → Byte) (f : FileStream) (start stop : Nat) :
    (readInfoLines junk f start stop).1 ≠ .error .outOfRange := by
  intro h
  unfold readInfoLines at h
  simp only at h
  cases hr : (readIds start (List.range' start (stop - start))
      ⟨((List.range' 0 start).foldl (fun st _ => fgets st.1 1024 st.2)
          (fgets (uninit junk 0 1024) 1024 f)).1,
        ((List.range' 0 start).foldl (fun st _ => fgets st.1 1024 st.2)
          (fgets (uninit junk 0 1024) 1024 f)).2, []⟩).1 with
  | error e =>
    have := readIds_error start _ _ e hr
    rw [hr] at h
    simp only [Except.map] at h
    cases h
    cases this
  | ok u =>
    rw [hr] at h
    simp [Except.map] at h

/-! ## Frame of the chunk reads -/

/-- `fgets` leaves the content of the stream alone. -/
theorem fgets_bytes (line : List Byte) (size : Nat) (f : FileStream) :
    (fgets line size f).2.bytes = f.bytes := by
  unfold fgets
  simp only
  split <;> rfl

/-- The skipping loop leaves the content of the stream alone. -/
theorem skipLoop_bytes (l : List Nat) :
    ∀ (st : List Byte × FileStream),
      (l.foldl (fun st _ => fgets st.1 1024 st.2) st).2.bytes = st.2.bytes := by
  induction l with
  | nil => intro st; rfl
  | cons a l ih =>
    intro st
    rw [List.foldl_cons, ih, fgets_bytes]

/-- The identifier loop leaves the content of the stream alone. -/
theorem readIds_bytes (start : Nat) (l : List Nat) :
    ∀ (st : InfoState), (readIds start l st).2.file.bytes = st.file.bytes := by
  induction l with
  | nil => intro st; rfl
  | cons i l ih =>
    intro st
    unfold readIds
    simp only
    split
    · exact fgets_bytes _ _ _
    · rw [ih]
      exact fgets_bytes _ _ _

/-- The shared body of the metadata readers leaves the content of the stream
alone. -/
theorem readInfoLines_bytes (junk : Nat → Byte) (f : FileStream) (start stop : Nat) :
    (readInfoLines junk f start stop).2.bytes = f.bytes := by
  unfold readInfoLines
  simp only
  rw [readIds_bytes]
  simp only
  rw [skipLoop_bytes, fgets_bytes]

/-- The genotype reader changes nothing in the reader but the cursor of the
genotype stream, whatever its outcome. -/
theorem readGenotypesChunk_frame (junk : Nat → Byte) (reader : Plink2Reader)
    (sv ev ss es : Nat) :
    (Plink2Reader_readGenotypesChunk junk reader sv ev ss es).2
      = { reader with pgen_file := ⟨reader.pgen_file.bytes,
            (Plink2Reader_readGenotypesChunk junk reader sv ev ss es).2.pgen_file.pos⟩ } := by
  unfold Plink2Reader_readGenotypesChunk
  split
  · rfl
  · simp only
    split <;> rfl

/-- The variant-table reader changes nothing in the reader but the cursor of
the variant table, whatever its outcome. -/
theorem readVariantInfoChunk_frame (junk : Nat → Byte) (reader : Plink2Reader)
    (start stop : Nat) :
    (Plink2Reader_readVariantInfoChunk junk reader start stop).2
      = { reader with pvar_file := ⟨reader.pvar_file.bytes,
            (Plink2Reader_readVariantInfoChunk junk reader start stop).2.pvar_file.pos⟩ } := by
  unfold Plink2Reader_readVariantInfoChunk
  split
  · rfl
  · simp only
    have h := readInfoLines_bytes junk reader.pvar_file start stop
    cases hr : (readInfoLines junk reader.pvar_file start stop).2 with
    | mk b p =>
      rw [hr] at h
      simp only at h
      rw [h]

/-- The sample-table reader changes nothing in the reader but the cursor of
the sample table, whatever its outcome. -/
theorem readSampleInfoChunk_frame (junk : Nat → Byte) (reader : Plink2Reader)
    (start stop : Nat) :
    (Plink2Reader_readSampleInfoChunk junk reader start stop).2
      = { reader with psam_file := ⟨reader.psam_file.bytes,
            (Plink2Reader_readSampleInfoChunk junk reader start stop).2.psam_file.pos⟩ } := by
  unfold Plink2Reader_readSampleInfoChunk
  split
  · rfl
  · simp only
    have h := readInfoLines_bytes junk reader.psam_file start stop
    cases hr : (readInfoLines junk reader.psam_file start stop).2 with
    | mk b p =>
      rw [hr] at h
      simp only at h
      rw [h]

/-- A chunk read keeps the counts and the content of the genotype stream. -/
theorem chunkCall_after_keeps (reader : Plink2Reader) (call : ChunkCall) :
    (call.after reader).variant_count = reader.variant_count
    ∧ (call.after reader).sample_count = reader.sample_count
    ∧ (call.after reader).pgen_file.bytes = reader.pgen_file.bytes := by
  cases call with
  | genotypes junk sv ev ss es =>
    simp only [ChunkCall.after]
    rw [readGenotypesChunk_frame]
    exact ⟨rfl, rfl, rfl⟩
  | variantInfo junk s e =>
    simp only [ChunkCall.after]
    rw [readVariantInfoChunk_frame]
    exact ⟨rfl, rfl, rfl⟩
  | sampleInfo junk s e =>
    simp only [ChunkCall.after]
    rw [readSampleInfoChunk_frame]
    exact ⟨rfl, rfl, rfl⟩

/-- A sequence of chunk reads keeps the counts and the content of the genotype
stream. -/
theorem afterCalls_keeps (calls : List ChunkCall) :
    ∀ (reader : Plink2Reader),
      (afterCalls reader calls).variant_count = reader.variant_count
      ∧ (afterCalls reader calls).sample_count = reader.sample_count
      ∧ (afterCalls reader calls).pgen_file.bytes = reader.pgen_file.bytes := by
  induction calls with
  | nil => intro reader; exact ⟨rfl, rfl, rfl⟩
  | cons call calls ih =>
    intro reader
    obtain ⟨h1, h2, h3⟩ := ih (call.after reader)
    obtain ⟨k1, k2, k3⟩ := chunkCall_after_keeps reader call
    simp only [afterCalls, List.foldl_cons] at h1 h2 h3 ⊢
    exact ⟨h1.trans k1, h2.trans k2, h3.trans k3⟩

/-- The outcome of the genotype reader is a function of the two counts and of
the content of the genotype stream: the cursor plays no part. -/
theorem readGenotypesChunk_fst_congr (junk : Nat → Byte) (r r' : Plink2Reader)
    (sv ev ss es : Nat) (hv : r'.variant_count = r.variant_count)
    (hs : r'.sample_count = r.sample_count) (hb : r'.pgen_file.bytes = r.pgen_file.bytes) :
    (Plink2Reader_readGenotypesChunk junk r' sv ev ss es).1
      = (Plink2Reader_readGenotypesChunk junk r sv ev ss es).1 := by
  have hseek : ∀ off, fseekSet r'.pgen_file off = fseekSet r.pgen_file off := by
    intro off
    simp [fseekSet, hb]
  unfold Plink2Reader_readGenotypesChunk
  simp only [hv, hs, hseek]
  split
  · rfl
  · split <;> rfl

/-! ## The bytes behind the decoded cells -/

/-- A byte of the block filled by `fread` is the byte of the stream at the
same distance from the cursor, as long as the stream holds the whole span. -/
theorem fread_getD_inside (buf : List Byte) (n i : Nat) (f : FileStream) (hi : i < n)
    (h : f.pos + n ≤ f.bytes.length) :
    (fread buf n f).1.getD i 0 = f.bytes.getD (f.pos + i) 0 := by
  have hlen : ((f.bytes.drop f.pos).take n).length = n := by
    simp only [List.length_take, List.length_drop]
    omega
  unfold fread
  simp only [List.getD_eq_getElem?_getD]
  rw [List.getElem?_append_left (by omega), List.getElem?_take_of_lt hi, List.getElem?_drop]

/-- The offset of line 78 is `11 + ((sv * sc + ss) mod 2 ^ 32) / 4`. -/
theorem startPos_eq (sc sv ss : Nat) : startPos sc sv ss = 11 + (sv * sc + ss) % U32 / 4 := by
  unfold startPos
  rw [Nat.mod_add_mod]

/-- The value stored for a byte is `d` of its two low bits. -/
theorem decodeByte_eq (b : Byte) : decodeByte b = lowBitsGenotype (b.val % 4) := by
  have h : b.val &&& 0x03 = b.val % 4 := Nat.and_pow_two_sub_one_eq_mod b.val 2
  unfold decodeByte lowBitsGenotype
  simp only [h]
  by_cases h3 : b.val % 4 = 3
  · simp [h3]
  · have h3' : ¬ ((b.val % 4 : Nat) : Int) = 3 := by
      intro hh
      exact h3 (by exact_mod_cast hh)
    rw [if_neg h3', if_neg h3]

/-- Two matrices of one shape that agree cell by cell are equal. -/
theorem matrix_ext {m m' : Matrix} {rows cols : Nat} (h : HasShape m rows cols)
    (h' : HasShape m' rows cols)
    (hc : ∀ r c, r < rows → c < cols → cell m r c = cell m' r c) : m = m' := by
  obtain ⟨hl, hr⟩ := h
  obtain ⟨hl', hr'⟩ := h'
  apply List.ext_getElem (by omega)
  intro r h1 h2
  have e1 : (m[r]).length = cols := hr _ (List.getElem_mem _)
  have e2 : (m'[r]).length = cols := hr' _ (List.getElem_mem _)
  apply List.ext_getElem (by omega)
  intro c k1 k2
  have := hc r c (by omega) (by omega)
  simp only [cell, List.getElem?_eq_getElem h1, List.getElem?_eq_getElem h2, Option.some_bind,
    List.getElem?_eq_getElem k1, List.getElem?_eq_getElem k2] at this
  exact Option.some.inj this

/-- When the check passes, both ranges are in order, the number of cells fits
32 bits and the stream holds the whole span read, the matrix has the shape of
the window and its cell at row `r`, column `c` is decoded from the stream byte
at offset `startPos + c * (es - ss) + r`: unwritten storage plays no part. -/
theorem readGenotypesChunk_inside (junk : Nat → Byte) (reader : Plink2Reader)
    (sv ev ss es : Nat) (hv : ev < reader.variant_count) (hs : es < reader.sample_count)
    (hev : ev < U32) (hes : es < U32) (hsv : sv ≤ ev) (hss : ss ≤ es)
    (hprod : (ev - sv) * (es - ss) < U32)
    (hlen : startPos reader.sample_count sv ss + (ev - sv) * (es - ss)
      ≤ reader.pgen_file.bytes.length) :
    ∃ m, (Plink2Reader_readGenotypesChunk junk reader sv ev ss es).1 = .ok m ∧
      HasShape m (es - ss) (ev - sv) ∧
      ∀ r c, r < es - ss → c < ev - sv →
        cell m r c = some (some (decodeByte (reader.pgen_file.bytes.getD
          (startPos reader.sample_count sv ss + c * (es - ss) + r) 0))) := by
  obtain ⟨m, h1, h2, h3⟩ := readGenotypesChunk_ok junk reader sv ev ss es hv hs hev hes hsv hss
    hprod
  refine ⟨m, by rw [h1], h2, ?_⟩
  intro r c hr hc
  rw [h3 r c hr hc]
  have hidx : c * (es - ss) + r < (ev - sv) * (es - ss) := by
    have : (c + 1) * (es - ss) ≤ (ev - sv) * (es - ss) := Nat.mul_le_mul_right _ hc
    rw [Nat.succ_mul] at this
    omega
  rw [fread_getD_inside _ _ _ _ hidx (by simpa [fseekSet] using hlen)]
  simp [fseekSet, Nat.add_assoc]

/-! ## Metadata reads from any cursor -/

/-- From any cursor in front of a line followed by well-formed data lines,
lines 106-116 take that line for the header, skip `start` data lines, store the
first fields of the `stop - start` lines after them, and leave the cursor after
the last line they consumed. -/
theorem readInfoLines_from (junk : Nat → Byte) (f : FileStream) (header : List Byte)
    (rows : List (List Byte × List Byte)) (tail : List Byte) (start stop : Nat)
    (hf : f.bytes.drop f.pos = header ++ NL :: (rowsBytes rows ++ tail))
    (hh : NL ∉ header) (hhl : header.length + 1 < 1024) (hok : ∀ row ∈ rows, RowOk row)
    (hstart : start ≤ rows.length) (hstop : stop ≤ rows.length) :
    readInfoLines junk f start stop
      = (.ok (expectedStores rows start stop),
          ⟨f.bytes, f.pos
            + (header ++ NL :: rowsBytes (rows.take (start + (stop - start)))).length⟩) := by
  have hA : (rows.take start).length = start := by simp; omega
  have hB : ((rows.drop start).take (stop - start)).length = stop - start := by simp; omega
  have hAB : rows.take (start + (stop - start))
      = rows.take start ++ (rows.drop start).take (stop - start) := by
    rw [List.take_add]
  have hrows : rows = rows.take start
      ++ ((rows.drop start).take (stop - start) ++ rows.drop (start + (stop - start))) := by
    rw [← List.append_assoc, ← hAB, List.take_append_drop]
  have hokA : ∀ row ∈ rows.take start, RowOk row := fun r hr => hok r (List.mem_of_mem_take hr)
  have hokB : ∀ row ∈ (rows.drop start).take (stop - start), RowOk row :=
    fun r hr => hok r (List.mem_of_mem_drop (List.mem_of_mem_take hr))
  obtain ⟨e0, d0⟩ := fgets_line (uninit junk 0 1024) f _ _ hf hh hhl
  have d0' : (fgets (uninit junk 0 1024) 1024 f).2.bytes.drop
      (fgets (uninit junk 0 1024) 1024 f).2.pos
        = rowsBytes (rows.take start)
          ++ (rowsBytes ((rows.drop start).take (stop - start))
            ++ (rowsBytes (rows.drop (start + (stop - start))) ++ tail)) := by
    have hsplit : rowsBytes rows = rowsBytes (rows.take start)
        ++ (rowsBytes ((rows.drop start).take (stop - start))
          ++ rowsBytes (rows.drop (start + (stop - start)))) := by
      conv_lhs => rw [hrows]
      rw [rowsBytes_append, rowsBytes_append]
    rw [e0]
    simp only
    rw [d0, hsplit]
    simp only [List.append_assoc]
  obtain ⟨buf1, e1⟩ := skip_rows (rows.take start) 0
    (fgets (uninit junk 0 1024) 1024 f).1 (fgets (uninit junk 0 1024) 1024 f).2 _ hokA d0'
  rw [hA] at e1
  obtain ⟨buf2, e2⟩ := readIds_rows start ((rows.drop start).take (stop - start)) start buf1
    ⟨(fgets (uninit junk 0 1024) 1024 f).2.bytes,
      (fgets (uninit junk 0 1024) 1024 f).2.pos + (rowsBytes (rows.take start)).length⟩ []
    (rowsBytes (rows.drop (start + (stop - start))) ++ tail) hokB (drop_after d0')
  rw [hB] at e2
  unfold readInfoLines
  simp only
  rw [e1, e2]
  simp only [Except.map, List.nil_append]
  rw [zipWith_range_slice start rows (stop - start) start (by omega), e0, hAB]
  simp only [expectedStores, rowsBytes_append, List.length_append, List.length_cons]
  simp [Nat.add_assoc]
  omega

/-- The unread part of a table after its header line and its first `k` data
lines. -/
theorem tableBytes_drop (header : List Byte) (rows : List (List Byte × List Byte))
    (tail : List Byte) (k : Nat) :
    (tableBytes header rows tail).drop (header ++ NL :: rowsBytes (rows.take k)).length
      = rowsBytes (rows.drop k) ++ tail := by
  have : tableBytes header rows tail
      = (header ++ NL :: rowsBytes (rows.take k)) ++ (rowsBytes (rows.drop k) ++ tail) := by
    conv_lhs => rw [tableBytes, ← List.take_append_drop k rows, rowsBytes_append]
    simp
  rw [this, List.drop_left]

/-- Row `i` of what is left after dropping `k` rows is row `k + i`. -/
theorem getD_drop_rows (rows : List (List Byte × List Byte)) (k i : Nat) :
    (rows.drop k).getD i ([], []) = rows.getD (k + i) ([], []) := by
  simp [List.getD_eq_getElem?_getD, List.getElem?_drop]

/-- Two metadata reads in a row on one table stream read from its beginning:
the second takes the data line after those the first consumed for a header
line, and stores the first fields of the rows `m + 1 + i` for `i` from `s2` up
to `e2`, where `m` is the number of data lines the first consumed. -/
theorem readInfoLines_twice (junk1 junk2 : Nat → Byte) (header : List Byte)
    (rows : List (List Byte × List Byte)) (tail : List Byte) (s1 e1 s2 e2 : Nat)
    (hh : NL ∉ header) (hhl : header.length + 1 < 1024) (hok : ∀ row ∈ rows, RowOk row)
    (hlen : s1 + (e1 - s1) + 1 + (s2 + (e2 - s2)) ≤ rows.length) :
    readInfoLines junk2 (readInfoLines junk1 ⟨tableBytes header rows tail, 0⟩ s1 e1).2 s2 e2
      = (.ok ((List.range' s2 (e2 - s2)).map
            (fun i => (i - s2, (rows.getD (s1 + (e1 - s1) + 1 + i) ([], [])).1))),
          ⟨tableBytes header rows tail,
            (header ++ NL :: rowsBytes
              (rows.take (s1 + (e1 - s1) + 1 + (s2 + (e2 - s2))))).length⟩) := by
  have h0 : (⟨tableBytes header rows tail, 0⟩ : FileStream).bytes.drop
      (⟨tableBytes header rows tail, 0⟩ : FileStream).pos
        = header ++ NL :: (rowsBytes rows ++ tail) := by
    simp [tableBytes]
  have first := readInfoLines_from junk1 ⟨tableBytes header rows tail, 0⟩ header rows tail s1 e1
    h0 hh hhl hok (by omega) (by omega)
  rw [first]
  simp only [Nat.zero_add]
  have hm : s1 + (e1 - s1) < rows.length := by omega
  have hdrop : rows.drop (s1 + (e1 - s1))
      = rows[s1 + (e1 - s1)] :: rows.drop (s1 + (e1 - s1) + 1) := List.drop_eq_getElem_cons hm
  have hrow : RowOk rows[s1 + (e1 - s1)] := hok _ (List.getElem_mem _)
  obtain ⟨hsplit, hnl, hfit⟩ := rowLine_split _ hrow
  have hf : (⟨tableBytes header rows tail,
        (header ++ NL :: rowsBytes (rows.take (s1 + (e1 - s1)))).length⟩ : FileStream).bytes.drop
      (⟨tableBytes header rows tail,
        (header ++ NL :: rowsBytes (rows.take (s1 + (e1 - s1)))).length⟩ : FileStream).pos
      = (rows[s1 + (e1 - s1)].1 ++ TAB :: rows[s1 + (e1 - s1)].2)
        ++ NL :: (rowsBytes (rows.drop (s1 + (e1 - s1) + 1)) ++ tail) := by
    simp only
    rw [tableBytes_drop, hdrop, rowsBytes, hsplit]
    simp
  have hokD : ∀ row ∈ rows.drop (s1 + (e1 - s1) + 1), RowOk row :=
    fun r hr => hok r (List.mem_of_mem_drop hr)
  have second := readInfoLines_from junk2 _ _ (rows.drop (s1 + (e1 - s1) + 1)) tail s2 e2 hf hnl
    hfit hokD (by simp; omega) (by simp; omega)
  rw [second]
  have htake : rows.take (s1 + (e1 - s1) + 1 + (s2 + (e2 - s2)))
      = rows.take (s1 + (e1 - s1)) ++ (rows[s1 + (e1 - s1)]
        :: (rows.drop (s1 + (e1 - s1) + 1)).take (s2 + (e2 - s2))) := by
    rw [Nat.add_assoc (s1 + (e1 - s1)) 1, List.take_add, hdrop, Nat.add_comm 1,
      List.take_succ_cons]
  congr 1
  · simp only [expectedStores, getD_drop_rows]
  · congr 1
    rw [htake]
    simp only [rowsBytes_append, rowsBytes, hsplit, List.length_append, List.length_cons,
      List.length_nil]
    omega

/-- The byte count of line 81 is the number of cells of the window modulo
2 ^ 32: it is that number exactly when the number fits 32 bits. -/
theorem bytesToRead_eq_iff (sv ev ss es : Nat) (hev : ev < U32) (hes : es < U32)
    (hsv : sv ≤ ev) (hss : ss ≤ es) :
    bytesToRead sv ev ss es = ((ev - sv) * (es - ss)) % U32
    ∧ (bytesToRead sv ev ss es = (ev - sv) * (es - ss) ↔ (ev - sv) * (es - ss) < U32) := by
  have hb : bytesToRead sv ev ss es = ((ev - sv) * (es - ss)) % U32 := by
    unfold bytesToRead
    rw [u32_sub ev sv hev hsv, u32_sub es ss hes hss]
  refine ⟨hb, ?_⟩
  rw [hb]
  constructor
  · intro h
    rw [← h]
    exact Nat.mod_lt _ (by decide)
  · intro h
    exact Nat.mod_eq_of_lt h

/-! ## The claims -/

/-- C1 (the code departs from the claim): on the 3 x 5 file `streamPacked`, whose
byte 11 holds the 2-bit code 1 at every pair position, the accepted window
variants [0, 1) x samples [0, 2) gives row 1, column 0 the value 0, decoded from
the low bits of byte 12, while the packed code of cell (variant 0, sample 1),
pair 1 of byte 11, is 1. -/
theorem packed_cell_read_from_next_byte :
    (Plink2Reader_readGenotypesChunk zeroJunk
        (Plink2Reader_readHeader true zeroJunk (freshReader streamPacked [] [])).2 0 1 0 2).1
      = .ok [[some 1], [some 0]]
    ∧ packedGenotype streamPacked 5 0 1 = 1 := by decide

/-- C2 (the code departs from the claim): with both counts 65537 the accepted
window [0, 65536) x [0, 65536) has 2 ^ 32 cells, the 32-bit byte count of line
81 is 0, and the first read of `file_chunk` falls outside the empty block: no
matrix of 65536 rows and 65536 columns is produced. -/
theorem wrapped_byte_count_faults :
    Plink2Reader_readGenotypesChunk zeroJunk
        (Plink2Reader_readHeader true zeroJunk (freshReader streamWideWindow [] [])).2
        0 65536 0 65536
      = (.error .memoryFault, ⟨⟨streamWideWindow, 11⟩, ⟨[], 0⟩, ⟨[], 0⟩, 65537, 65537, 13⟩)
    ∧ bytesToRead 0 65536 0 65536 = 0 := by decide

/-- C3: `Plink2Reader_readGenotypesChunk` stops with the out-of-range error
exactly when `end_variant >= variant_count` or `end_sample >= sample_count`,
and then leaves the reader untouched; with both end bounds equal to
`count - 1` it does not raise that error; and whenever the check passes the
call returns a matrix for every choice of the start bounds, `start >= end`
included, as long as the number of cells of the window fits 32 bits. -/
theorem readGenotypesChunk_outOfRange_iff (junk : Nat → Byte) (reader : Plink2Reader)
    (sv ev ss es : Nat) :
    ((Plink2Reader_readGenotypesChunk junk reader sv ev ss es).1 = .error .outOfRange
        ↔ (ev ≥ reader.variant_count ∨ es ≥ reader.sample_count))
    ∧ ((ev ≥ reader.variant_count ∨ es ≥ reader.sample_count) →
        Plink2Reader_readGenotypesChunk junk reader sv ev ss es = (.error .outOfRange, reader))
    ∧ (ev + 1 = reader.variant_count → es + 1 = reader.sample_count →
        (Plink2Reader_readGenotypesChunk junk reader sv ev ss es).1 ≠ .error .outOfRange)
    ∧ (ev < reader.variant_count → es < reader.sample_count → ev < U32 → es < U32 →
        (ev - sv) * (es - ss) < U32 →
        ∃ m, (Plink2Reader_readGenotypesChunk junk reader sv ev ss es).1 = .ok m) := by
  have hfail : (ev ≥ reader.variant_count ∨ es ≥ reader.sample_count) →
      Plink2Reader_readGenotypesChunk junk reader sv ev ss es = (.error .outOfRange, reader) := by
    intro h
    unfold Plink2Reader_readGenotypesChunk
    rw [if_pos h]
  have hpass : ¬ (ev ≥ reader.variant_count ∨ es ≥ reader.sample_count) →
      (Plink2Reader_readGenotypesChunk junk reader sv ev ss es).1 ≠ .error .outOfRange := by
    intro h
    unfold Plink2Reader_readGenotypesChunk
    rw [if_neg h]
    simp only
    split
    · rename_i e he
      have := decodeLoop_error he
      subst this
      simp
    · simp
  refine ⟨⟨?_, fun h => by rw [hfail h]⟩, hfail, ?_, ?_⟩
  · intro h
    by_contra hn
    exact hpass hn h
  · intro h1 h2
    exact hpass (by omega)
  · intro h1 h2 h3 h4 h5
    by_cases hne : sv ≤ ev ∧ ss ≤ es
    · obtain ⟨m, hm, _⟩ := readGenotypesChunk_ok junk reader sv ev ss es h1 h2 h3 h4 hne.1 hne.2 h5
      exact ⟨m, by rw [hm]⟩
    · exact readGenotypesChunk_no_cell junk reader sv ev ss es h1 h2 (by omega)

/-- Witness of C3: on the 3 x 5 file the window [0, 2) x [0, 4), whose end
bounds are both `count - 1`, returns a matrix. -/
theorem readGenotypesChunk_outOfRange_iff_witness :
    ∃ m, (Plink2Reader_readGenotypesChunk zeroJunk
      (Plink2Reader_readHeader true zeroJunk (freshReader streamPacked [] [])).2 0 2 0 4).1
        = .ok m :=
  (readGenotypesChunk_outOfRange_iff zeroJunk
    (Plink2Reader_readHeader true zeroJunk (freshReader streamPacked [] [])).2 0 2 0 4).2.2.2
    (by decide) (by decide) (by decide) (by decide) (by decide)

/-- C4 (the code departs from the claim): on the 2 x 4 file of the end-to-end
scenario, after `Plink2Reader_readHeader`, the call with bounds (0, 2, 0, 4)
stops with the out-of-range error instead of returning the reference matrix;
the largest window the check lets through, (0, 1, 0, 3), takes one code from
each of bytes 11, 12 and 13 and so returns 0, -1, 0 where the reference has
0, 1, 2; and for every reader the whole-matrix window [0, variant_count) x
[0, sample_count) stops with the out-of-range error. -/
theorem whole_matrix_window_rejected :
    (Plink2Reader_readHeader true zeroJunk (freshReader streamTwoByFour [] []))
      = (.ok (), ⟨⟨streamTwoByFour, 11⟩, ⟨[], 0⟩, ⟨[], 0⟩, 2, 4, 13⟩)
    ∧ (Plink2Reader_readGenotypesChunk zeroJunk
        (Plink2Reader_readHeader true zeroJunk (freshReader streamTwoByFour [] [])).2 0 2 0 4).1
      = .error .outOfRange
    ∧ (Plink2Reader_readGenotypesChunk zeroJunk
        (Plink2Reader_readHeader true zeroJunk (freshReader streamTwoByFour [] [])).2 0 1 0 3).1
      = .ok [[some 0], [some (-1)], [some 0]]
    ∧ ∀ (junk : Nat → Byte) (reader : Plink2Reader),
        (Plink2Reader_readGenotypesChunk junk reader 0 reader.variant_count 0
          reader.sample_count).1 = .error .outOfRange := by
  refine ⟨by decide, by decide, by decide, ?_⟩
  intro junk reader
  simp [Plink2Reader_readGenotypesChunk]

/-- C5 (the code departs from the claim): with `sample_count = 65536` the
accepted window starting at variant 65536, sample 0 seeks to offset 11, because
the 32-bit product 65536 * 65536 is 0, and reads its one cell from byte 11;
over the natural numbers the offset is 11 + 2 ^ 32 / 4 = 1073741835. -/
theorem seek_offset_wraps :
    Plink2Reader_readGenotypesChunk zeroJunk
        (Plink2Reader_readHeader true zeroJunk (freshReader streamWideOffset [] [])).2
        65536 65537 0 1
      = (.ok [[some 1]], ⟨⟨streamWideOffset, 12⟩, ⟨[], 0⟩, ⟨[], 0⟩, 65538, 65536, 13⟩)
    ∧ startPos 65536 65536 0 = 11
    ∧ 11 + (65536 * 65536 + 0) / 4 = 1073741835 := by decide

/-- C6: on a genotype stream read from its beginning that holds at least 11
bytes and starts with 0x6C, 0x1B, 0x10, `Plink2Reader_readHeader` succeeds
whatever follows; `variant_count` is the little-endian value of bytes 3..6,
`sample_count` that of bytes 7..10, `file_size` the length of the stream, and
the cursor is at offset 11. -/
theorem readHeader_ok (charSigned : Bool) (junk : Nat → Byte) (reader : Plink2Reader)
    (b3 b4 b5 b6 b7 b8 b9 b10 : Byte) (rest : List Byte)
    (hfile : reader.pgen_file
      = ⟨0x6C :: 0x1B :: 0x10 :: b3 :: b4 :: b5 :: b6 :: b7 :: b8 :: b9 :: b10 :: rest, 0⟩) :
    Plink2Reader_readHeader charSigned junk reader
      = (.ok (),
          { reader with
            pgen_file := ⟨reader.pgen_file.bytes, 11⟩
            variant_count := b3.val + 256 * b4.val + 65536 * b5.val + 16777216 * b6.val
            sample_count := b7.val + 256 * b8.val + 65536 * b9.val + 16777216 * b10.val
            file_size := reader.pgen_file.bytes.length }) := by
  have h1 : toChar charSigned (0x6C : Byte) = 0x6c := (toChar_eq_iff _ _ 0x6c (by decide)).2 rfl
  have h2 : toChar charSigned (0x1B : Byte) = 0x1b := (toChar_eq_iff _ _ 0x1b (by decide)).2 rfl
  have h3 : toChar charSigned (0x10 : Byte) = 0x10 := (toChar_eq_iff _ _ 0x10 (by decide)).2 rfl
  simp [Plink2Reader_readHeader, hfile, fread, freadU32, u32OfBytes, fseekEnd, fseekSet, ftell,
    h1, h2, h3, List.getD]

/-- Witness of C6: the 13-byte file `streamWideOffset`, far shorter than its
counts 65538 and 65536 call for. -/
theorem readHeader_ok_witness :
    Plink2Reader_readHeader true zeroJunk (freshReader streamWideOffset [] [])
      = (.ok (),
          { freshReader streamWideOffset [] [] with
            pgen_file := ⟨(freshReader streamWideOffset [] []).pgen_file.bytes, 11⟩
            variant_count := (2 : Byte).val + 256 * (0 : Byte).val + 65536 * (1 : Byte).val
              + 16777216 * (0 : Byte).val
            sample_count := (0 : Byte).val + 256 * (0 : Byte).val + 65536 * (1 : Byte).val
              + 16777216 * (0 : Byte).val
            file_size := (freshReader streamWideOffset [] []).pgen_file.bytes.length }) :=
  readHeader_ok true zeroJunk (freshReader streamWideOffset [] []) 2 0 1 0 0 0 1 0 [0x01, 0x02] rfl

/-- C7: on a genotype stream read from its beginning that holds at least 2
bytes, `Plink2Reader_readHeader` stops with the invalid-format error whenever
the first two bytes are not 0x6C, 0x1B, whatever the bytes after them; the
cursor stays at offset 2, before the storage-mode byte, and the counts and the
file size keep their values. -/
theorem readHeader_invalidFormat (charSigned : Bool) (junk : Nat → Byte) (reader : Plink2Reader)
    (a b : Byte) (rest : List Byte)
    (hfile : reader.pgen_file = ⟨a :: b :: rest, 0⟩) (hbad : ¬ (a = 0x6C ∧ b = 0x1B)) :
    Plink2Reader_readHeader charSigned junk reader
      = (.error .invalidFormat, { reader with pgen_file := ⟨a :: b :: rest, 2⟩ }) := by
  have ha : toChar charSigned a = 0x6c ↔ a = 0x6C := by
    rw [show ((0x6c : Int) = ((0x6c : Nat) : Int)) from rfl, toChar_eq_iff _ _ _ (by decide)]
    exact ⟨fun h => Fin.ext h, fun h => by rw [h]; rfl⟩
  have hb : toChar charSigned b = 0x1b ↔ b = 0x1B := by
    rw [show ((0x1b : Int) = ((0x1b : Nat) : Int)) from rfl, toChar_eq_iff _ _ _ (by decide)]
    exact ⟨fun h => Fin.ext h, fun h => by rw [h]; rfl⟩
  have hcond : toChar charSigned a ≠ 0x6c ∨ toChar charSigned b ≠ 0x1b := by
    by_cases h : a = 0x6C
    · right
      intro h'
      exact hbad ⟨h, hb.1 h'⟩
    · left
      intro h'
      exact h (ha.1 h')
  unfold Plink2Reader_readHeader
  simp only [hfile, fread, List.drop_zero, List.take_succ_cons, List.take_zero, List.length_cons,
    List.length_nil, List.getD_cons_zero, List.getD_cons_succ]
  simp [hcond]

/-- Witness of C7: a bad second magic byte followed by a bad mode byte gives
the format error. -/
theorem readHeader_invalidFormat_witness :
    Plink2Reader_readHeader true zeroJunk (freshReader [0x6C, 0x1C, 0x11, 0] [] [])
      = (.error .invalidFormat,
          { freshReader [0x6C, 0x1C, 0x11, 0] [] [] with
            pgen_file := ⟨[0x6C, 0x1C, 0x11, 0], 2⟩ }) :=
  readHeader_invalidFormat true zeroJunk (freshReader [0x6C, 0x1C, 0x11, 0] [] [])
    0x6C 0x1C [0x11, 0] rfl (by decide)

/-- C8: on a genotype stream read from its beginning that holds at least 3
bytes and starts with 0x6C, 0x1B, `Plink2Reader_readHeader` stops with the
unsupported-storage-mode error if and only if the third byte is not 0x10, for
each of the 256 values of that byte and whether plain `char` is signed or not;
it then leaves the cursor at offset 3 and records no count. -/
theorem readHeader_unsupportedMode_iff (charSigned : Bool) (junk : Nat → Byte)
    (reader : Plink2Reader) (mode : Byte) (rest : List Byte)
    (hfile : reader.pgen_file = ⟨0x6C :: 0x1B :: mode :: rest, 0⟩) :
    ((Plink2Reader_readHeader charSigned junk reader).1 = .error .unsupportedMode ↔ mode ≠ 0x10)
    ∧ (mode ≠ 0x10 → Plink2Reader_readHeader charSigned junk reader
        = (.error .unsupportedMode, { reader with pgen_file := ⟨0x6C :: 0x1B :: mode :: rest, 3⟩ }))
    ∧ (mode = 0x10 → (Plink2Reader_readHeader charSigned junk reader).1 = .ok ()) := by
  have h1 : toChar charSigned (0x6C : Byte) = 0x6c := (toChar_eq_iff _ _ 0x6c (by decide)).2 rfl
  have h2 : toChar charSigned (0x1B : Byte) = 0x1b := (toChar_eq_iff _ _ 0x1b (by decide)).2 rfl
  have hm : toChar charSigned mode = 0x10 ↔ mode = 0x10 := by
    rw [show ((0x10 : Int) = ((0x10 : Nat) : Int)) from rfl, toChar_eq_iff _ _ _ (by decide)]
    exact ⟨fun h => Fin.ext h, fun h => by rw [h]; rfl⟩
  have hbad : mode ≠ 0x10 → Plink2Reader_readHeader charSigned junk reader
      = (.error .unsupportedMode, { reader with pgen_file := ⟨0x6C :: 0x1B :: mode :: rest, 3⟩ }) := by
    intro h
    have h' : ¬ toChar charSigned mode = 0x10 := fun h'' => h (hm.1 h'')
    simp [Plink2Reader_readHeader, hfile, fread, h1, h2, h', List.getD]
  have hgood : mode = 0x10 → (Plink2Reader_readHeader charSigned junk reader).1 = .ok () := by
    intro h
    have h' : toChar charSigned mode = 0x10 := hm.2 h
    simp [Plink2Reader_readHeader, hfile, fread, h1, h2, h', List.getD]
  refine ⟨⟨?_, fun h => by rw [hbad h]⟩, hbad, hgood⟩
  intro h
  by_contra hn
  rw [hgood hn] at h
  cases h

/-- Witness of C8: the mode byte 0x90, negative as a signed `char`, is
rejected. -/
theorem readHeader_unsupportedMode_iff_witness :
    Plink2Reader_readHeader true zeroJunk (freshReader [0x6C, 0x1B, 0x90, 7] [] [])
      = (.error .unsupportedMode,
          { freshReader [0x6C, 0x1B, 0x90, 7] [] [] with
            pgen_file := ⟨[0x6C, 0x1B, 0x90, 7], 3⟩ }) :=
  (readHeader_unsupportedMode_iff true zeroJunk (freshReader [0x6C, 0x1B, 0x90, 7] [] [])
    0x90 [7] rfl).2.1 (by decide)

/-- C9: on a table stream at its beginning made of a header line, data lines
that each have a non-empty first field followed by a tab, and anything after
them, every line shorter than the 1024-byte buffer, the two metadata readers
called with `start <= stop < count` and at least `stop` data lines skip the
header line and `start` data lines, store at output index `i - start` the first
field of data row `i` for `i` from `start` to `stop - 1`, in that order, make
exactly `stop - start` stores, and leave the cursor after data row `stop - 1`. -/
theorem readInfoChunk_first_fields (junk : Nat → Byte) (reader : Plink2Reader)
    (header : List Byte) (rows : List (List Byte × List Byte)) (tail : List Byte)
    (start stop : Nat) (hh : NL ∉ header) (hhl : header.length + 1 < 1024)
    (hok : ∀ row ∈ rows, RowOk row) (hss : start ≤ stop) (hstop : stop ≤ rows.length) :
    (reader.pvar_file = ⟨tableBytes header rows tail, 0⟩ → stop < reader.variant_count →
      Plink2Reader_readVariantInfoChunk junk reader start stop
        = (.ok (expectedStores rows start stop),
            { reader with pvar_file := ⟨tableBytes header rows tail,
                (header ++ NL :: rowsBytes (rows.take stop)).length⟩ }))
    ∧ (reader.psam_file = ⟨tableBytes header rows tail, 0⟩ → stop < reader.sample_count →
      Plink2Reader_readSampleInfoChunk junk reader start stop
        = (.ok (expectedStores rows start stop),
            { reader with psam_file := ⟨tableBytes header rows tail,
                (header ++ NL :: rowsBytes (rows.take stop)).length⟩ }))
    ∧ (expectedStores rows start stop).length = stop - start
    ∧ ∀ j, j < stop - start →
        (expectedStores rows start stop)[j]? = some (j, (rows.getD (start + j) ([], [])).1) := by
  have key := readInfoLines_table junk header rows tail start stop hh hhl hok hss hstop
  refine ⟨?_, ?_, ?_, ?_⟩
  · intro hf hc
    have hguard : ¬ stop ≥ reader.variant_count := by omega
    unfold Plink2Reader_readVariantInfoChunk
    rw [if_neg hguard, hf, key]
  · intro hf hc
    have hguard : ¬ stop ≥ reader.sample_count := by omega
    unfold Plink2Reader_readSampleInfoChunk
    rw [if_neg hguard, hf, key]
  · simp [expectedStores]
  · intro j hj
    simp [expectedStores, List.getElem?_map, List.getElem?_range', hj]

/-- Witness of C9: the range (1, 3) on the example table, with a count of 4. -/
theorem readInfoChunk_first_fields_witness :
    Plink2Reader_readVariantInfoChunk zeroJunk exampleReader 1 3
      = (.ok (expectedStores exampleRows 1 3),
          { exampleReader with pvar_file := ⟨tableBytes exampleHeader exampleRows [],
              (exampleHeader ++ NL :: rowsBytes (exampleRows.take 3)).length⟩ }) :=
  (readInfoChunk_first_fields zeroJunk exampleReader exampleHeader exampleRows [] 1 3
    (by decide) (by decide) (by decide) (by decide) (by decide)).1 rfl (by decide)

/-- C10: `Plink2Reader_readVariantInfoChunk` stops with the out-of-range error
exactly when `end_variant >= variant_count`, and
`Plink2Reader_readSampleInfoChunk` exactly when `end_sample >= sample_count`;
a failing call leaves the reader, table cursors included, as it was; a call
with `end = count - 1` does not raise that error, and on a well-formed table
with at least `end` data lines it returns the identifiers; and whether the
error is raised is the same for every `start`. -/
theorem readInfoChunk_outOfRange_iff (junk : Nat → Byte) (reader : Plink2Reader)
    (start stop : Nat) :
    ((Plink2Reader_readVariantInfoChunk junk reader start stop).1 = .error .outOfRange
        ↔ stop ≥ reader.variant_count)
    ∧ ((Plink2Reader_readSampleInfoChunk junk reader start stop).1 = .error .outOfRange
        ↔ stop ≥ reader.sample_count)
    ∧ (stop ≥ reader.variant_count →
        Plink2Reader_readVariantInfoChunk junk reader start stop = (.error .outOfRange, reader))
    ∧ (stop ≥ reader.sample_count →
        Plink2Reader_readSampleInfoChunk junk reader start stop = (.error .outOfRange, reader))
    ∧ (stop + 1 = reader.variant_count →
        (Plink2Reader_readVariantInfoChunk junk reader start stop).1 ≠ .error .outOfRange)
    ∧ (stop + 1 = reader.sample_count →
        (Plink2Reader_readSampleInfoChunk junk reader start stop).1 ≠ .error .outOfRange)
    ∧ (∀ (header : List Byte) (rows : List (List Byte × List Byte)) (tail : List Byte),
        NL ∉ header → header.length + 1 < 1024 → (∀ row ∈ rows, RowOk row) →
        start ≤ stop → stop ≤ rows.length →
        (reader.pvar_file = ⟨tableBytes header rows tail, 0⟩ → stop + 1 = reader.variant_count →
          (Plink2Reader_readVariantInfoChunk junk reader start stop).1
            = .ok (expectedStores rows start stop))
        ∧ (reader.psam_file = ⟨tableBytes header rows tail, 0⟩ →
          stop + 1 = reader.sample_count →
          (Plink2Reader_readSampleInfoChunk junk reader start stop).1
            = .ok (expectedStores rows start stop)))
    ∧ (∀ start',
        ((Plink2Reader_readVariantInfoChunk junk reader start stop).1 = .error .outOfRange
          ↔ (Plink2Reader_readVariantInfoChunk junk reader start' stop).1 = .error .outOfRange)
        ∧ ((Plink2Reader_readSampleInfoChunk junk reader start stop).1 = .error .outOfRange
          ↔ (Plink2Reader_readSampleInfoChunk junk reader start' stop).1
              = .error .outOfRange)) := by
  have hv : ∀ s, ((Plink2Reader_readVariantInfoChunk junk reader s stop).1 = .error .outOfRange
      ↔ stop ≥ reader.variant_count) := by
    intro s
    unfold Plink2Reader_readVariantInfoChunk
    by_cases h : stop ≥ reader.variant_count
    · simp [h]
    · rw [if_neg h]
      simp only [h, iff_false]
      exact readInfoLines_not_outOfRange junk _ s stop
  have hs : ∀ s, ((Plink2Reader_readSampleInfoChunk junk reader s stop).1 = .error .outOfRange
      ↔ stop ≥ reader.sample_count) := by
    intro s
    unfold Plink2Reader_readSampleInfoChunk
    by_cases h : stop ≥ reader.sample_count
    · simp [h]
    · rw [if_neg h]
      simp only [h, iff_false]
      exact readInfoLines_not_outOfRange junk _ s stop
  refine ⟨hv start, hs start, ?_, ?_, ?_, ?_, ?_, ?_⟩
  · intro h
    unfold Plink2Reader_readVariantInfoChunk
    rw [if_pos h]
  · intro h
    unfold Plink2Reader_readSampleInfoChunk
    rw [if_pos h]
  · intro h h'
    have := (hv start).1 h'
    omega
  · intro h h'
    have := (hs start).1 h'
    omega
  · intro header rows tail hh hhl hok hss hstop
    have key := readInfoLines_table junk header rows tail start stop hh hhl hok hss hstop
    constructor
    · intro hf hc
      have hguard : ¬ stop ≥ reader.variant_count := by omega
      unfold Plink2Reader_readVariantInfoChunk
      rw [if_neg hguard, hf, key]
    · intro hf hc
      have hguard : ¬ stop ≥ reader.sample_count := by omega
      unfold Plink2Reader_readSampleInfoChunk
      rw [if_neg hguard, hf, key]
  · intro s
    exact ⟨by rw [hv start, hv s], by rw [hs start, hs s]⟩

/-- Witness of C10: on the example reader, whose counts are 4, the range (1, 4)
fails and leaves the reader as it was. -/
theorem readInfoChunk_outOfRange_iff_witness :
    Plink2Reader_readVariantInfoChunk zeroJunk exampleReader 1 4
      = (.error .outOfRange, exampleReader) :=
  (readInfoChunk_outOfRange_iff zeroJunk exampleReader 1 4).2.2.1 (by decide)

/-- C11 (the code departs from the claim): on the table `ID<tab>OTHER`,
`v0<tab>x`, `v1<tab>y`, `v2<tab>z` bound to a reader whose `variant_count` is 3,
`Plink2Reader_readVariantInfoChunk(1, 3)` on the fresh stream stops with the
out-of-range error and reads nothing; the widest range starting at 1 that the
check accepts, (1, 2), returns `v1` alone; with a count of 4 the same call
(1, 3) returns `v1`, `v2`. -/
theorem example_range_rejected_at_count_three :
    Plink2Reader_readVariantInfoChunk zeroJunk exampleReaderThree 1 3
      = (.error .outOfRange, exampleReaderThree)
    ∧ (Plink2Reader_readVariantInfoChunk zeroJunk exampleReaderThree 1 2).1
      = .ok [(0, [118, 49])]
    ∧ (Plink2Reader_readVariantInfoChunk zeroJunk exampleReader 1 3).1
      = .ok [(0, [118, 49]), (1, [118, 50])] := by decide

/-- C12 (the code departs from the claim): on the data line `<tab>v0<tab>x`,
whose text up to its first tab is empty, the identifier stored is `v0`, the
second field, because `strtok` skips leading tabs; on the data line `ab`, which
holds no tab, the identifier stored is `ab` followed by the newline of the
line. -/
theorem leading_tab_field_skipped :
    (Plink2Reader_readVariantInfoChunk zeroJunk oddReader 0 2).1
      = .ok [(0, [118, 48]), (1, [97, 98, 10])]
    ∧ firstField [9, 118, 48, 9, 120] = []
    ∧ firstField [97, 98] = [97, 98] := by decide

/-- C13: each of the three chunk reads, for all its arguments and whatever its
outcome, returns the reader it was given with one cursor moved: the genotype
reader that of the genotype stream, each table reader that of its own table;
`variant_count`, `sample_count`, `file_size`, the contents of the three streams
and the cursors of the two other streams keep their values. -/
theorem chunk_reads_frame (junk : Nat → Byte) (reader : Plink2Reader) (sv ev ss es start stop : Nat) :
    (∃ p, (Plink2Reader_readGenotypesChunk junk reader sv ev ss es).2
        = { reader with pgen_file := ⟨reader.pgen_file.bytes, p⟩ })
    ∧ (∃ p, (Plink2Reader_readVariantInfoChunk junk reader start stop).2
        = { reader with pvar_file := ⟨reader.pvar_file.bytes, p⟩ })
    ∧ (∃ p, (Plink2Reader_readSampleInfoChunk junk reader start stop).2
        = { reader with psam_file := ⟨reader.psam_file.bytes, p⟩ })
    ∧ (Plink2Reader_readGenotypesChunk junk reader sv ev ss es).2.variant_count
        = reader.variant_count
    ∧ (Plink2Reader_readGenotypesChunk junk reader sv ev ss es).2.sample_count
        = reader.sample_count
    ∧ (Plink2Reader_readGenotypesChunk junk reader sv ev ss es).2.file_size = reader.file_size
    ∧ (Plink2Reader_readGenotypesChunk junk reader sv ev ss es).2.pvar_file = reader.pvar_file
    ∧ (Plink2Reader_readGenotypesChunk junk reader sv ev ss es).2.psam_file = reader.psam_file
    ∧ (Plink2Reader_readVariantInfoChunk junk reader start stop).2.variant_count
        = reader.variant_count
    ∧ (Plink2Reader_readVariantInfoChunk junk reader start stop).2.sample_count
        = reader.sample_count
    ∧ (Plink2Reader_readVariantInfoChunk junk reader start stop).2.file_size = reader.file_size
    ∧ (Plink2Reader_readVariantInfoChunk junk reader start stop).2.pgen_file = reader.pgen_file
    ∧ (Plink2Reader_readVariantInfoChunk junk reader start stop).2.psam_file = reader.psam_file
    ∧ (Plink2Reader_readSampleInfoChunk junk reader start stop).2.variant_count
        = reader.variant_count
    ∧ (Plink2Reader_readSampleInfoChunk junk reader start stop).2.sample_count
        = reader.sample_count
    ∧ (Plink2Reader_readSampleInfoChunk junk reader start stop).2.file_size = reader.file_size
    ∧ (Plink2Reader_readSampleInfoChunk junk reader start stop).2.pgen_file = reader.pgen_file
    ∧ (Plink2Reader_readSampleInfoChunk junk reader start stop).2.pvar_file
        = reader.pvar_file := by
  have hg := readGenotypesChunk_frame junk reader sv ev ss es
  have hv := readVariantInfoChunk_frame junk reader start stop
  have hs := readSampleInfoChunk_frame junk reader start stop
  refine ⟨⟨_, hg⟩, ⟨_, hv⟩, ⟨_, hs⟩, ?_, ?_, ?_, ?_, ?_, ?_, ?_, ?_, ?_, ?_, ?_, ?_, ?_, ?_, ?_⟩
  all_goals first
    | (rw [hg]) | (rw [hv]) | (rw [hs])

/-- C14: for an accepted window with `start < end` on both axes and fewer than
2 ^ 32 cells, on a stream that holds the whole span read from
`p = 11 + ((start_variant * sample_count + start_sample) mod 2 ^ 32) / 4`, the
call returns a matrix of the shape of the window whose cell at row
`s - start_sample`, column `v - start_variant` is `d (B[p + (v - start_variant)
* (end_sample - start_sample) + (s - start_sample)] mod 4)`: one genotype from
the two low bits of each successive byte. -/
theorem readGenotypesChunk_literal_decoding (junk : Nat → Byte) (reader : Plink2Reader) (sv ev ss es : Nat)
    (hv : ev < reader.variant_count) (hs : es < reader.sample_count)
    (hev : ev < 2 ^ 32) (hes : es < 2 ^ 32) (hsv : sv < ev) (hss : ss < es)
    (hprod : (ev - sv) * (es - ss) < 2 ^ 32)
    (hlen : 11 + (sv * reader.sample_count + ss) % 2 ^ 32 / 4 + (ev - sv) * (es - ss)
      ≤ reader.pgen_file.bytes.length) :
    ∃ m, (Plink2Reader_readGenotypesChunk junk reader sv ev ss es).1 = .ok m ∧
      HasShape m (es - ss) (ev - sv) ∧
      ∀ v s, sv ≤ v → v < ev → ss ≤ s → s < es →
        cell m (s - ss) (v - sv) = some (some (lowBitsGenotype
          ((reader.pgen_file.bytes.getD
            (11 + (sv * reader.sample_count + ss) % 2 ^ 32 / 4
              + (v - sv) * (es - ss) + (s - ss)) 0).val % 4))) := by
  have hpos : startPos reader.sample_count sv ss
      = 11 + (sv * reader.sample_count + ss) % 2 ^ 32 / 4 := startPos_eq _ _ _
  obtain ⟨m, h1, h2, h3⟩ := readGenotypesChunk_inside junk reader sv ev ss es hv hs hev hes
    (Nat.le_of_lt hsv) (Nat.le_of_lt hss) hprod (by rw [hpos]; exact hlen)
  refine ⟨m, h1, h2, ?_⟩
  intro v s hv1 hv2 hs1 hs2
  rw [h3 (s - ss) (v - sv) (by omega) (by omega), decodeByte_eq, hpos]

/-- Witness of C14: the window [0, 1) x [0, 2) of the 3 x 5 file. -/
theorem readGenotypesChunk_literal_decoding_witness :
    ∃ m, (Plink2Reader_readGenotypesChunk zeroJunk
        (Plink2Reader_readHeader true zeroJunk (freshReader streamPacked [] [])).2 0 1 0 2).1
          = .ok m ∧
      HasShape m (2 - 0) (1 - 0) ∧
      ∀ v s, 0 ≤ v → v < 1 → 0 ≤ s → s < 2 →
        cell m (s - 0) (v - 0) = some (some (lowBitsGenotype
          (((Plink2Reader_readHeader true zeroJunk
              (freshReader streamPacked [] [])).2.pgen_file.bytes.getD
            (11 + (0 * (Plink2Reader_readHeader true zeroJunk
                (freshReader streamPacked [] [])).2.sample_count + 0) % 2 ^ 32 / 4
              + (v - 0) * (2 - 0) + (s - 0)) 0).val % 4))) :=
  readGenotypesChunk_literal_decoding zeroJunk
    (Plink2Reader_readHeader true zeroJunk (freshReader streamPacked [] [])).2 0 1 0 2
    (by decide) (by decide) (by decide) (by decide) (by decide) (by decide) (by decide)
    (by decide)

/-- C15 (the code departs from the claim): for the accepted window
[0, 2147483648) x [0, 2) the number of cells is 2 ^ 32 while the 32-bit byte
count of line 81 is 0, so nothing is allocated or read and the first pass of
the decode loop reads outside the block. -/
theorem byte_count_wraps_below_cell_count :
    bytesToRead 0 2147483648 0 2 = 0
    ∧ (2147483648 - 0) * (2 - 0) = 4294967296
    ∧ (Plink2Reader_readGenotypesChunk zeroJunk
        (Plink2Reader_readHeader true zeroJunk (freshReader streamTallWindow [] [])).2
        0 2147483648 0 2).1 = .error .memoryFault := by decide

/-- C16, as stated, fails when the first range is reversed: after the call
(2, 1), which stores nothing and consumes the header line and two data lines,
the call (0, 1) returns the first field of data row 3, not that of row
`e1 + s2 + 1 = 2`. -/
theorem reversed_first_range_shifts_second_read :
    (Plink2Reader_readVariantInfoChunk zeroJunk fiveRowReader 2 1).1 = .ok []
    ∧ (Plink2Reader_readVariantInfoChunk zeroJunk
        (Plink2Reader_readVariantInfoChunk zeroJunk fiveRowReader 2 1).2 0 1).1
      = .ok [(0, [118, 51])]
    ∧ (fiveRows.getD (1 + 0 + 1) ([], [])).1 = [118, 50] := by decide

/-- C16, amended: on a well-formed table read from its beginning, after a call
`(s1, e1)` with `s1 <= e1` that passes the range check, a second call
`(s2, e2)` that passes it, on a table with at least `e1 + 1 + max s2 e2` data
lines, takes data line `e1` for a header line, skips `s2` lines and stores at
output index `i - s2` the first field of data row `e1 + 1 + i` for `i` from
`s2` up to `e2`, that is rows `e1 + s2 + 1` through `e1 + e2`; the cursor ends
after data row `e1 + max s2 e2`.  This holds for both metadata readers. -/
theorem second_info_read_resumes (junk1 junk2 : Nat → Byte) (reader : Plink2Reader)
    (header : List Byte) (rows : List (List Byte × List Byte)) (tail : List Byte)
    (s1 e1 s2 e2 : Nat) (hh : NL ∉ header) (hhl : header.length + 1 < 1024)
    (hok : ∀ row ∈ rows, RowOk row) (h1 : s1 ≤ e1) (hlen : e1 + 1 + max s2 e2 ≤ rows.length) :
    (reader.pvar_file = ⟨tableBytes header rows tail, 0⟩ →
      e1 < reader.variant_count → e2 < reader.variant_count →
      (Plink2Reader_readVariantInfoChunk junk1 reader s1 e1).1
        = .ok (expectedStores rows s1 e1)
      ∧ Plink2Reader_readVariantInfoChunk junk2
          (Plink2Reader_readVariantInfoChunk junk1 reader s1 e1).2 s2 e2
        = (.ok ((List.range' s2 (e2 - s2)).map
              (fun i => (i - s2, (rows.getD (e1 + 1 + i) ([], [])).1))),
            { reader with pvar_file := ⟨tableBytes header rows tail,
                (header ++ NL :: rowsBytes (rows.take (e1 + 1 + max s2 e2))).length⟩ }))
    ∧ (reader.psam_file = ⟨tableBytes header rows tail, 0⟩ →
      e1 < reader.sample_count → e2 < reader.sample_count →
      (Plink2Reader_readSampleInfoChunk junk1 reader s1 e1).1
        = .ok (expectedStores rows s1 e1)
      ∧ Plink2Reader_readSampleInfoChunk junk2
          (Plink2Reader_readSampleInfoChunk junk1 reader s1 e1).2 s2 e2
        = (.ok ((List.range' s2 (e2 - s2)).map
              (fun i => (i - s2, (rows.getD (e1 + 1 + i) ([], [])).1))),
            { reader with psam_file := ⟨tableBytes header rows tail,
                (header ++ NL :: rowsBytes (rows.take (e1 + 1 + max s2 e2))).length⟩ })) := by
  have hs1 : s1 + (e1 - s1) = e1 := by omega
  have hs2 : s2 + (e2 - s2) = max s2 e2 := by omega
  have first := readInfoLines_table junk1 header rows tail s1 e1 hh hhl hok h1 (by omega)
  have key := readInfoLines_twice junk1 junk2 header rows tail s1 e1 s2 e2 hh hhl hok
    (by omega)
  rw [hs1, hs2] at key
  constructor
  · intro hf hc1 hc2
    have g1 : ¬ e1 ≥ reader.variant_count := by omega
    have g2 : ¬ e2 ≥ reader.variant_count := by omega
    constructor
    · simp only [Plink2Reader_readVariantInfoChunk, if_neg g1, hf, first]
    · simp only [Plink2Reader_readVariantInfoChunk, if_neg g1, if_neg g2, hf, key]
  · intro hf hc1 hc2
    have g1 : ¬ e1 ≥ reader.sample_count := by omega
    have g2 : ¬ e2 ≥ reader.sample_count := by omega
    constructor
    · simp only [Plink2Reader_readSampleInfoChunk, if_neg g1, hf, first]
    · simp only [Plink2Reader_readSampleInfoChunk, if_neg g1, if_neg g2, hf, key]

/-- Witness of C16: on the table of five rows, the calls (0, 1) then (1, 3) of
the variant reader. -/
theorem second_info_read_resumes_witness :
    Plink2Reader_readVariantInfoChunk zeroJunk
        (Plink2Reader_readVariantInfoChunk zeroJunk fiveRowReader 0 1).2 1 3
      = (.ok ((List.range' 1 (3 - 1)).map
            (fun i => (i - 1, (fiveRows.getD (1 + 1 + i) ([], [])).1))),
          { fiveRowReader with pvar_file := ⟨tableBytes exampleHeader fiveRows [],
              (exampleHeader ++ NL :: rowsBytes (fiveRows.take (1 + 1 + max 1 3))).length⟩ }) :=
  ((second_info_read_resumes zeroJunk zeroJunk fiveRowReader exampleHeader fiveRows [] 0 1 1 3
    (by decide) (by decide) (by decide) (by decide) (by decide)).1 rfl (by decide)
    (by decide)).2

/-- C17 (the code departs from the claim): the 3 x 5 file `streamPacked` has
the length 11 + ceil(15 / 4) = 15 of the invariant, yet the accepted window
[0, 2) x [0, 4) asks for 8 bytes from offset 11, up to offset 19; only 4 bytes
are read, and the cells decoded from the 4 other bytes of the block follow
the unwritten storage: 0 when it holds zeros, -1 when it holds 0xFF. -/
theorem span_overruns_well_formed_file :
    streamPacked.length = 11 + (3 * 5 + 3) / 4
    ∧ (Plink2Reader_readHeader true zeroJunk (freshReader streamPacked [] [])).2.file_size = 15
    ∧ startPos 5 0 0 + bytesToRead 0 2 0 4 = 19
    ∧ Plink2Reader_readGenotypesChunk zeroJunk
        (Plink2Reader_readHeader true zeroJunk (freshReader streamPacked [] [])).2 0 2 0 4
      = (.ok [[some 1, some 0], [some 0, some 0], [some 0, some 0], [some 0, some 0]],
          ⟨⟨streamPacked, 15⟩, ⟨[], 0⟩, ⟨[], 0⟩, 3, 5, 15⟩)
    ∧ (Plink2Reader_readGenotypesChunk onesJunk
        (Plink2Reader_readHeader true zeroJunk (freshReader streamPacked [] [])).2 0 2 0 4).1
      = .ok [[some 1, some (-1)], [some 0, some (-1)], [some 0, some (-1)],
          [some 0, some (-1)]] := by
  decide

/-- C18: the outcome of `Plink2Reader_readGenotypesChunk` does not depend on
where the cursor of the genotype stream is: for every stream, every reader and
all four bounds, the call made after any sequence of chunk reads, and the call
made with the cursor anywhere, have the outcome of the same call on the reader
as it was, because line 79 seeks to an absolute offset; the storage the call
reads without having written it is taken to hold the same bytes in the calls
compared.  When the window is accepted, has fewer than 2 ^ 32 cells and the
stream holds the whole span read, no such storage is decoded, and the two calls
return the same matrix whatever it holds. -/
theorem readGenotypesChunk_cursor_independent (junk junk' : Nat → Byte)
    (reader : Plink2Reader) (calls : List ChunkCall) (sv ev ss es : Nat) :
    (Plink2Reader_readGenotypesChunk junk (afterCalls reader calls) sv ev ss es).1
        = (Plink2Reader_readGenotypesChunk junk reader sv ev ss es).1
    ∧ (∀ p, (Plink2Reader_readGenotypesChunk junk
          { reader with pgen_file := ⟨reader.pgen_file.bytes, p⟩ } sv ev ss es).1
        = (Plink2Reader_readGenotypesChunk junk reader sv ev ss es).1)
    ∧ (ev < reader.variant_count → es < reader.sample_count → ev < U32 → es < U32 →
        sv ≤ ev → ss ≤ es → (ev - sv) * (es - ss) < U32 →
        startPos reader.sample_count sv ss + (ev - sv) * (es - ss)
          ≤ reader.pgen_file.bytes.length →
        (Plink2Reader_readGenotypesChunk junk' (afterCalls reader calls) sv ev ss es).1
          = (Plink2Reader_readGenotypesChunk junk reader sv ev ss es).1) := by
  obtain ⟨k1, k2, k3⟩ := afterCalls_keeps calls reader
  refine ⟨readGenotypesChunk_fst_congr junk reader _ sv ev ss es k1 k2 k3,
    fun p => readGenotypesChunk_fst_congr junk reader _ sv ev ss es rfl rfl rfl, ?_⟩
  intro hv hs hev hes hsv hss hprod hlen
  rw [readGenotypesChunk_fst_congr junk' reader _ sv ev ss es k1 k2 k3]
  obtain ⟨m, h1, h2, h3⟩ := readGenotypesChunk_inside junk reader sv ev ss es hv hs hev hes
    hsv hss hprod hlen
  obtain ⟨m', h1', h2', h3'⟩ := readGenotypesChunk_inside junk' reader sv ev ss es hv hs hev hes
    hsv hss hprod hlen
  rw [h1, h1']
  congr 1
  apply matrix_ext h2' h2
  intro r c hr hc
  rw [h3 r c hr hc, h3' r c hr hc]

/-- Witness of C18: on the 3 x 5 file the window (0, 1, 0, 2) read after a
short read of the window (0, 2, 0, 4) and a metadata read. -/
theorem readGenotypesChunk_cursor_independent_witness :
    (Plink2Reader_readGenotypesChunk onesJunk
        (afterCalls (Plink2Reader_readHeader true zeroJunk (freshReader streamPacked [] [])).2
          [ChunkCall.genotypes zeroJunk 0 2 0 4, ChunkCall.variantInfo zeroJunk 0 1])
        0 1 0 2).1
      = (Plink2Reader_readGenotypesChunk zeroJunk
          (Plink2Reader_readHeader true zeroJunk (freshReader streamPacked [] [])).2
          0 1 0 2).1 :=
  (readGenotypesChunk_cursor_independent zeroJunk onesJunk
    (Plink2Reader_readHeader true zeroJunk (freshReader streamPacked [] [])).2
    [ChunkCall.genotypes zeroJunk 0 2 0 4, ChunkCall.variantInfo zeroJunk 0 1] 0 1 0 2).2.2
    (by decide) (by decide) (by decide) (by decide) (by decide) (by decide) (by decide)
    (by decide)

end Plink2
